import Mathlib

/-!
Verification of the chess-variant rules engine (9-column board, two queens
per side).  The definitions below are a shallow embedding of the TypeScript
engine (`chessLogic`): boards are lists of rows of optional pieces, squares
are integer coordinate pairs (JS numbers used as indices), and every engine
function mirrors the corresponding source function, including iteration
order and early-return structure.  Out-of-range array reads are modelled by
`cellAt` returning `none`; out-of-range writes are modelled by `setCell`
leaving the board unchanged.
-/

namespace Chess

inductive PieceColor where
  | white
  | black
deriving DecidableEq, Repr

inductive PieceType where
  | king
  | queen
  | rook
  | bishop
  | knight
  | pawn
deriving DecidableEq, Repr

structure ChessPiece where
  type : PieceType
  color : PieceColor
deriving DecidableEq, Repr

structure Position where
  row : Int
  col : Int
deriving DecidableEq, Repr

structure CastlingRights where
  whiteKingside : Bool
  whiteQueenside : Bool
  blackKingside : Bool
  blackQueenside : Bool
deriving DecidableEq, Repr

inductive PromotionPiece where
  | queen
  | rook
  | bishop
  | knight
deriving DecidableEq, Repr

inductive SpecialMove where
  | enPassant
  | castleKingside
  | castleQueenside
  | promotion
deriving DecidableEq, Repr

inductive DrawReason where
  | stalemate
  | threefold
  | fiftyMove
  | insufficient
  | agreement
deriving DecidableEq, Repr

structure DrawStatus where
  isDraw : Bool
  reason : Option DrawReason
deriving DecidableEq, Repr

abbrev Board := List (List (Option ChessPiece))

structure MoveResult where
  newBoard : Board
  captured : Option ChessPiece
  newEnPassantTarget : Option Position
  newCastlingRights : CastlingRights
  specialMove : Option SpecialMove
deriving DecidableEq, Repr

/-- A `{ from, to, piece }` move record as produced by the move generator. -/
structure MoveCand where
  fromPos : Position
  toPos : Position
  piece : ChessPiece
deriving DecidableEq, Repr

def PieceColor.other : PieceColor → PieceColor
  | .white => .black
  | .black => .white

/-- `board.length`. -/
def rowsOf (b : Board) : Nat := b.length

/-- `board[0].length`. -/
def colsOf (b : Board) : Nat := (b.headD []).length

/-- `board[r][c]` as a read: `none` for an empty square and for any
out-of-range index. -/
def cellAt (b : Board) (r c : Int) : Option ChessPiece :=
  if 0 ≤ r ∧ 0 ≤ c then ((b.getD r.toNat []).getD c.toNat none) else none

/-- `board[r][c] = v` as an in-range assignment (out-of-range writes leave
the board unchanged). -/
def setCell (b : Board) (r c : Int) (v : Option ChessPiece) : Board :=
  if 0 ≤ r ∧ 0 ≤ c then b.set r.toNat ((b.getD r.toNat []).set c.toNat v) else b

/-- The square lies within the board rectangle (`rows × cols`). -/
def inBoundsB (b : Board) (p : Position) : Prop :=
  0 ≤ p.row ∧ p.row < (rowsOf b : Int) ∧ 0 ≤ p.col ∧ p.col < (colsOf b : Int)

instance (b : Board) (p : Position) : Decidable (inBoundsB b p) := by
  unfold inBoundsB; infer_instance

/-- Every row of the board has length `colsOf b`. -/
def Rect (b : Board) : Prop := ∀ row ∈ b, row.length = colsOf b

instance (b : Board) : Decidable (Rect b) := by
  unfold Rect; infer_instance

/-- `isPathClear`: every square strictly between `f` and `t` (stepping by
the sign of the row/column delta) is empty.  The source walks from `f`
toward `t`; for the straight/diagonal lines on which it is called these are
exactly the `max |Δrow| |Δcol| - 1` intermediate squares. -/
def isPathClear (b : Board) (f t : Position) : Bool :=
  let rowDir := Int.sign (t.row - f.row)
  let colDir := Int.sign (t.col - f.col)
  let steps := max (t.row - f.row).natAbs (t.col - f.col).natAbs
  (List.range (steps - 1)).all fun i =>
    (cellAt b (f.row + rowDir * ((i : Int) + 1)) (f.col + colDir * ((i : Int) + 1))).isNone

/-- `isValidMoveBasicForAttack`: move validation used for attack checks
(no castling, pawns only capture diagonally). -/
def isValidMoveBasicForAttack (b : Board) (f t : Position) : Bool :=
  let rows := (rowsOf b : Int)
  let cols := (colsOf b : Int)
  if t.row < 0 ∨ rows ≤ t.row ∨ t.col < 0 ∨ cols ≤ t.col then false
  else
    match cellAt b f.row f.col with
    | none => false
    | some piece =>
      if (cellAt b t.row t.col).any fun tp => tp.color = piece.color then false
      else if f.row = t.row ∧ f.col = t.col then false
      else
        let rowDiff := t.row - f.row
        let colDiff := t.col - f.col
        let absRowDiff := rowDiff.natAbs
        let absColDiff := colDiff.natAbs
        match piece.type with
        | .pawn =>
          let direction : Int := if piece.color = .white then -1 else 1
          decide (absColDiff = 1 ∧ rowDiff = direction)
        | .knight =>
          decide ((absRowDiff = 2 ∧ absColDiff = 1) ∨ (absRowDiff = 1 ∧ absColDiff = 2))
        | .bishop =>
          if absRowDiff ≠ absColDiff then false else isPathClear b f t
        | .rook =>
          if rowDiff ≠ 0 ∧ colDiff ≠ 0 then false else isPathClear b f t
        | .queen =>
          if absRowDiff ≠ absColDiff ∧ rowDiff ≠ 0 ∧ colDiff ≠ 0 then false
          else isPathClear b f t
        | .king =>
          decide (absRowDiff ≤ 1 ∧ absColDiff ≤ 1)

/-- `isSquareUnderAttack`: some piece of `attacker` has a basic (attack)
move landing on `pos`. -/
def isSquareUnderAttack (b : Board) (pos : Position) (attacker : PieceColor) : Bool :=
  (List.range (rowsOf b)).any fun r =>
    (List.range (colsOf b)).any fun c =>
      match cellAt b (r : Int) (c : Int) with
      | some p => decide (p.color = attacker) && isValidMoveBasicForAttack b ⟨r, c⟩ pos
      | none => false

/-- `findKingPosition`: first square in row-major order holding `color`'s
king. -/
def findKingPosition (b : Board) (color : PieceColor) : Option Position :=
  (List.range (rowsOf b)).findSome? fun r =>
    (List.range (colsOf b)).findSome? fun c =>
      match cellAt b (r : Int) (c : Int) with
      | some p => if p.type = .king ∧ p.color = color then some ⟨r, c⟩ else none
      | none => none

/-- `isKingInCheck`. -/
def isKingInCheck (b : Board) (kingColor : PieceColor) : Bool :=
  match findKingPosition b kingColor with
  | none => false
  | some kingPos => isSquareUnderAttack b kingPos kingColor.other

/-- `canCastle`. -/
def canCastle (b : Board) (f t : Position) (color : PieceColor)
    (cr : CastlingRights) : Bool :=
  let rows := (rowsOf b : Int)
  let kingRow : Int := if color = .white then rows - 1 else 0
  let kingCol : Int := 4
  if f.row ≠ kingRow ∨ f.col ≠ kingCol then false
  else
    let isKingside := decide (f.col < t.col)
    let rightGranted :=
      if color = .white then
        (if isKingside then cr.whiteKingside else cr.whiteQueenside)
      else
        (if isKingside then cr.blackKingside else cr.blackQueenside)
    if !rightGranted then false
    else if isKingInCheck b color then false
    else
      let rookCol : Int := if isKingside then 8 else 0
      match cellAt b kingRow rookCol with
      | none => false
      | some rook =>
        if rook.type ≠ .rook ∨ rook.color ≠ color then false
        else
          let startCol := min kingCol rookCol + 1
          let endCol := max kingCol rookCol
          let pathClear := (List.range (endCol - startCol).toNat).all fun i =>
            (cellAt b kingRow (startCol + (i : Int))).isNone
          if !pathClear then false
          else
            let opponentColor := color.other
            let direction : Int := if isKingside then 1 else -1
            (List.range 2).all fun i =>
              !(isSquareUnderAttack b ⟨kingRow, kingCol + direction * ((i : Int) + 1)⟩
                  opponentColor)

/-- `isValidMoveBasic`: per-piece-type geometric move validation (bounds
check on the destination, no king-safety filtering). -/
def isValidMoveBasic (b : Board) (f t : Position) (enPassantTarget : Option Position)
    (castlingRights : Option CastlingRights) : Bool :=
  let rows := (rowsOf b : Int)
  let cols := (colsOf b : Int)
  if t.row < 0 ∨ rows ≤ t.row ∨ t.col < 0 ∨ cols ≤ t.col then false
  else
    match cellAt b f.row f.col with
    | none => false
    | some piece =>
      let target := cellAt b t.row t.col
      if target.any fun tp => tp.color = piece.color then false
      else if f.row = t.row ∧ f.col = t.col then false
      else
        let rowDiff := t.row - f.row
        let colDiff := t.col - f.col
        let absRowDiff := rowDiff.natAbs
        let absColDiff := colDiff.natAbs
        let whiteStartRow := rows - 2
        let blackStartRow : Int := 1
        match piece.type with
        | .pawn =>
          let direction : Int := if piece.color = .white then -1 else 1
          let startRow := if piece.color = .white then whiteStartRow else blackStartRow
          let forward :=
            decide (colDiff = 0) && target.isNone &&
              (decide (rowDiff = direction) ||
                (decide (f.row = startRow ∧ rowDiff = 2 * direction) &&
                  (cellAt b (f.row + direction) f.col).isNone))
          let captureGeometry := decide (absColDiff = 1 ∧ rowDiff = direction)
          let capture :=
            captureGeometry &&
              (target.isSome ||
                (match enPassantTarget with
                 | some e => decide (t.row = e.row ∧ t.col = e.col)
                 | none => false))
          forward || capture
        | .knight =>
          decide ((absRowDiff = 2 ∧ absColDiff = 1) ∨ (absRowDiff = 1 ∧ absColDiff = 2))
        | .bishop =>
          if absRowDiff ≠ absColDiff then false else isPathClear b f t
        | .rook =>
          if rowDiff ≠ 0 ∧ colDiff ≠ 0 then false else isPathClear b f t
        | .queen =>
          if absRowDiff ≠ absColDiff ∧ rowDiff ≠ 0 ∧ colDiff ≠ 0 then false
          else isPathClear b f t
        | .king =>
          if absRowDiff ≤ 1 ∧ absColDiff ≤ 1 then true
          else
            match castlingRights with
            | some rights =>
              decide (absRowDiff = 0 ∧ absColDiff = 2) &&
                canCastle b f t piece.color rights
            | none => false

/-- The simulated board of `wouldMoveLeaveKingInCheck`: move the piece,
remove an en-passant-captured pawn, relocate the rook for castling. -/
def simulateMove (b : Board) (f t : Position) (enPassantTarget : Option Position) :
    Board :=
  let piece := cellAt b f.row f.col
  let b1 := setCell (setCell b t.row t.col (cellAt b f.row f.col)) f.row f.col none
  let b2 :=
    match piece, enPassantTarget with
    | some p, some e =>
      if p.type = .pawn ∧ t.row = e.row ∧ t.col = e.col then
        let capturedPawnRow := if p.color = .white then t.row + 1 else t.row - 1
        setCell b1 capturedPawnRow t.col none
      else b1
    | _, _ => b1
  match piece with
  | some p =>
    if p.type = .king ∧ (t.col - f.col).natAbs = 2 then
      let isKingside := decide (f.col < t.col)
      let rookFromCol : Int := if isKingside then 8 else 0
      let rookToCol : Int := if isKingside then t.col - 1 else t.col + 1
      setCell (setCell b2 t.row rookToCol (cellAt b2 t.row rookFromCol)) t.row rookFromCol
        none
    else b2
  | none => b2

/-- `wouldMoveLeaveKingInCheck`. -/
def wouldMoveLeaveKingInCheck (b : Board) (f t : Position) (playerColor : PieceColor)
    (enPassantTarget : Option Position) : Bool :=
  isKingInCheck (simulateMove b f t enPassantTarget) playerColor

/-- `isValidMove`: full legality (basic validity plus king safety). -/
def isValidMove (b : Board) (f t : Position) (enPassantTarget : Option Position)
    (castlingRights : Option CastlingRights) : Bool :=
  match cellAt b f.row f.col with
  | none => false
  | some piece =>
    if !isValidMoveBasic b f t enPassantTarget castlingRights then false
    else if wouldMoveLeaveKingInCheck b f t piece.color enPassantTarget then false
    else true

/-- `getValidMoves`: all destinations (row-major) for which `isValidMove`
holds. -/
def getValidMoves (b : Board) (f : Position) (enPassantTarget : Option Position)
    (castlingRights : Option CastlingRights) : List Position :=
  (List.range (rowsOf b)).flatMap fun r =>
    (List.range (colsOf b)).filterMap fun c =>
      if isValidMove b f ⟨r, c⟩ enPassantTarget castlingRights then
        some ⟨r, c⟩
      else none

/-- `getPiecesOfColor`. -/
def getPiecesOfColor (b : Board) (color : PieceColor) :
    List (ChessPiece × Position) :=
  (List.range (rowsOf b)).flatMap fun r =>
    (List.range (colsOf b)).filterMap fun c =>
      match cellAt b (r : Int) (c : Int) with
      | some p => if p.color = color then some (p, ⟨r, c⟩) else none
      | none => none

/-- `getAllLegalMoves`. -/
def getAllLegalMoves (b : Board) (color : PieceColor)
    (enPassantTarget : Option Position) (castlingRights : Option CastlingRights) :
    List MoveCand :=
  (getPiecesOfColor b color).flatMap fun pp =>
    (getValidMoves b pp.2 enPassantTarget castlingRights).map fun t =>
      ⟨pp.2, t, pp.1⟩

/-- `getAllMoves` (the AI entry point; delegates to `getAllLegalMoves`). -/
def getAllMoves (b : Board) (color : PieceColor) (enPassantTarget : Option Position)
    (castlingRights : Option CastlingRights) : List MoveCand :=
  getAllLegalMoves b color enPassantTarget castlingRights

/-- `isCheckmate`. -/
def isCheckmate (b : Board) (color : PieceColor) (enPassantTarget : Option Position)
    (castlingRights : Option CastlingRights) : Bool :=
  if !isKingInCheck b color then false
  else (getAllLegalMoves b color enPassantTarget castlingRights).isEmpty

/-- `isStalemate`. -/
def isStalemate (b : Board) (color : PieceColor) (enPassantTarget : Option Position)
    (castlingRights : Option CastlingRights) : Bool :=
  if isKingInCheck b color then false
  else (getAllLegalMoves b color enPassantTarget castlingRights).isEmpty

/-- The string literal of the `PieceColor` union member. -/
def colorName : PieceColor → String
  | .white => "white"
  | .black => "black"

/-- The string literal of the `PieceType` union member. -/
def pieceTypeName : PieceType → String
  | .king => "king"
  | .queen => "queen"
  | .rook => "rook"
  | .bishop => "bishop"
  | .knight => "knight"
  | .pawn => "pawn"

/-- `getBoardPositionHash`: the position-signature string (occupied squares
in row-major order as `color[0] + type[0] + row + col`, then the side to
move's first letter, then the granted castling-rights letters, then the
en passant target as `e + row + col`). -/
def getBoardPositionHash (b : Board) (currentPlayer : PieceColor)
    (castlingRights : CastlingRights) (enPassantTarget : Option Position) : String :=
  let boardPart := String.join <|
    (List.range (rowsOf b)).map fun r =>
      String.join <|
        (List.range (colsOf b)).map fun c =>
          match cellAt b (r : Int) (c : Int) with
          | some p =>
            (colorName p.color).take 1 ++ (pieceTypeName p.type).take 1 ++
              toString r ++ toString c
          | none => ""
  boardPart ++ (colorName currentPlayer).take 1 ++
    (if castlingRights.whiteKingside then "K" else "") ++
    (if castlingRights.whiteQueenside then "Q" else "") ++
    (if castlingRights.blackKingside then "k" else "") ++
    (if castlingRights.blackQueenside then "q" else "") ++
    (match enPassantTarget with
     | some e => "e" ++ toString e.row ++ toString e.col
     | none => "")

/-- `isThreefoldRepetition`: the current signature already occurs at least
twice in the history. -/
def isThreefoldRepetition (positionHistory : List String) (currentPosition : String) :
    Bool :=
  (positionHistory.filter fun pos => pos = currentPosition).length ≥ 2

/-- `isFiftyMoveRule`. -/
def isFiftyMoveRule (halfMoveClock : Int) : Bool :=
  100 ≤ halfMoveClock

/-- The piece list collected by `isInsufficientMaterial` (row-major). -/
def piecesOn (b : Board) : List (ChessPiece × Position) :=
  (List.range (rowsOf b)).flatMap fun r =>
    (List.range (colsOf b)).filterMap fun c =>
      match cellAt b (r : Int) (c : Int) with
      | some p => some (p, ⟨r, c⟩)
      | none => none

/-- `isInsufficientMaterial`. -/
def isInsufficientMaterial (b : Board) : Bool :=
  let pieces := piecesOn b
  if pieces.length = 2 then
    pieces.all fun p => p.1.type = .king
  else if pieces.length = 3 then
    match pieces.filter (fun p => p.1.type ≠ .king) with
    | [p] => decide (p.1.type = .bishop ∨ p.1.type = .knight)
    | _ => false
  else if pieces.length = 4 then
    match pieces.filter (fun p => p.1.type = .bishop) with
    | [b1, b2] => decide ((b1.2.row + b1.2.col) % 2 = (b2.2.row + b2.2.col) % 2)
    | _ => false
  else false

/-- `getDrawStatus`. -/
def getDrawStatus (b : Board) (currentPlayer : PieceColor)
    (enPassantTarget : Option Position) (castlingRights : CastlingRights)
    (positionHistory : List String) (halfMoveClock : Int) : DrawStatus :=
  if isStalemate b currentPlayer enPassantTarget (some castlingRights) then
    ⟨true, some .stalemate⟩
  else
    let currentPosition :=
      getBoardPositionHash b currentPlayer castlingRights enPassantTarget
    if isThreefoldRepetition positionHistory currentPosition then
      ⟨true, some .threefold⟩
    else if isFiftyMoveRule halfMoveClock then
      ⟨true, some .fiftyMove⟩
    else if isInsufficientMaterial b then
      ⟨true, some .insufficient⟩
    else ⟨false, none⟩

/-- `getSpecialMoveType`. -/
def getSpecialMoveType (b : Board) (f t : Position)
    (enPassantTarget : Option Position) : Option SpecialMove :=
  match cellAt b f.row f.col with
  | none => none
  | some piece =>
    if piece.type = .king ∧ (t.col - f.col).natAbs = 2 then
      if f.col < t.col then some .castleKingside else some .castleQueenside
    else if piece.type = .pawn ∧ enPassantTarget = some ⟨t.row, t.col⟩ then
      some .enPassant
    else if piece.type = .pawn ∧
        ((piece.color = .white ∧ t.row = 0) ∨
          (piece.color = .black ∧ t.row = (rowsOf b : Int) - 1)) then
      some .promotion
    else none

/-- The piece a `PromotionPiece` choice turns the pawn into. -/
def promotionType : PromotionPiece → PieceType
  | .queen => .queen
  | .rook => .rook
  | .bishop => .bishop
  | .knight => .knight

/-- Castling-rights update of `executeMove`: the king moved. -/
def clearRightsKingMoved (piece : ChessPiece) (cr : CastlingRights) : CastlingRights :=
  if piece.type = .king then
    if piece.color = .white then
      { cr with whiteKingside := false, whiteQueenside := false }
    else
      { cr with blackKingside := false, blackQueenside := false }
  else cr

/-- Castling-rights update of `executeMove`: a rook moved from its home
square. -/
def clearRightsRookMoved (rows : Int) (piece : ChessPiece) (f : Position)
    (cr : CastlingRights) : CastlingRights :=
  if piece.type = .rook then
    if piece.color = .white then
      let cra := if f.col = 0 ∧ f.row = rows - 1 then { cr with whiteQueenside := false }
        else cr
      if f.col = 8 ∧ f.row = rows - 1 then { cra with whiteKingside := false } else cra
    else
      let cra := if f.col = 0 ∧ f.row = 0 then { cr with blackQueenside := false }
        else cr
      if f.col = 8 ∧ f.row = 0 then { cra with blackKingside := false } else cra
  else cr

/-- Castling-rights update of `executeMove`: a rook was captured on its
home square (judged at the destination square). -/
def clearRightsRookCaptured (rows : Int) (captured : Option ChessPiece) (t : Position)
    (cr : CastlingRights) : CastlingRights :=
  match captured with
  | some cap =>
    if cap.type = .rook then
      if cap.color = .white then
        let cra :=
          if t.col = 0 ∧ t.row = rows - 1 then { cr with whiteQueenside := false }
          else cr
        if t.col = 8 ∧ t.row = rows - 1 then { cra with whiteKingside := false } else cra
      else
        let cra := if t.col = 0 ∧ t.row = 0 then { cr with blackQueenside := false }
          else cr
        if t.col = 8 ∧ t.row = 0 then { cra with blackKingside := false } else cra
    else cr
  | none => cr

/-- `executeMove`: apply a (pre-validated) move, producing the new board,
the captured piece, the new en passant target, the new castling rights and
the special-move tag. -/
def executeMove (b : Board) (f t : Position) (castlingRights : CastlingRights)
    (enPassantTarget : Option Position)
    (promotionPiece : PromotionPiece := .queen) : MoveResult :=
  match cellAt b f.row f.col with
  | none => ⟨b, none, none, castlingRights, none⟩
  | some piece =>
    let rows := (rowsOf b : Int)
    let specialMove := getSpecialMoveType b f t enPassantTarget
    -- en passant: capture the pawn sitting behind the destination
    let capturedPawnRow := if piece.color = .white then t.row + 1 else t.row - 1
    let captured :=
      if specialMove = some .enPassant then cellAt b capturedPawnRow t.col
      else cellAt b t.row t.col
    let b1 :=
      if specialMove = some .enPassant then setCell b capturedPawnRow t.col none
      else b
    -- castling: relocate the rook
    let b2 :=
      if specialMove = some .castleKingside ∨ specialMove = some .castleQueenside then
        let isKingside := specialMove = some .castleKingside
        let rookFromCol : Int := if isKingside then 8 else 0
        let rookToCol : Int := if isKingside then t.col - 1 else t.col + 1
        setCell (setCell b1 t.row rookToCol (cellAt b1 t.row rookFromCol)) t.row
          rookFromCol none
      else b1
    -- place the piece (promoting if needed), clear the source square
    let b3 :=
      if specialMove = some .promotion then
        setCell b2 t.row t.col (some ⟨promotionType promotionPiece, piece.color⟩)
      else setCell b2 t.row t.col (some piece)
    let b4 := setCell b3 f.row f.col none
    -- en passant target for the reply
    let newEnPassantTarget : Option Position :=
      if piece.type = .pawn ∧ (t.row - f.row).natAbs = 2 then
        some ⟨if piece.color = .white then t.row + 1 else t.row - 1, t.col⟩
      else none
    let cr1 := clearRightsKingMoved piece castlingRights
    let cr2 := clearRightsRookMoved rows piece f cr1
    let cr3 := clearRightsRookCaptured rows captured t cr2
    ⟨b4, captured, newEnPassantTarget, cr3, specialMove⟩

/-- Search scores: rationals extended with the `-Infinity` / `Infinity`
sentinels the JS search uses for windows and fold seeds. -/
inductive Score where
  | negInf
  | fin (q : ℚ)
  | posInf
deriving DecidableEq, Repr

namespace Score

def le : Score → Score → Prop
  | .negInf, _ => True
  | .fin x, .fin y => x ≤ y
  | .fin _, .posInf => True
  | .fin _, .negInf => False
  | .posInf, .posInf => True
  | .posInf, .fin _ => False
  | .posInf, .negInf => False

instance decLE : ∀ a b : Score, Decidable (Score.le a b) := fun a b => by
  cases a <;> cases b <;> simp only [Score.le] <;> infer_instance

instance : LinearOrder Score where
  le := Score.le
  le_refl a := by cases a <;> simp [Score.le]
  le_trans a b c hab hbc := by
    cases a <;> cases b <;> cases c <;>
      simp_all [Score.le] <;> exact le_trans hab hbc
  le_antisymm a b hab hba := by
    cases a <;> cases b <;> simp_all [Score.le]
    exact le_antisymm hab hba
  le_total a b := by
    cases a <;> cases b <;> simp [Score.le, le_total]
  decidableLE := Score.decLE

/-- `score + randomFactor` (JS addition; the infinities absorb). -/
def addQ : Score → ℚ → Score
  | .negInf, _ => .negInf
  | .fin x, q => .fin (x + q)
  | .posInf, _ => .posInf

end Score

/-- `pieceValues`. -/
def pieceValues : PieceType → ℚ
  | .pawn => 1
  | .knight => 3
  | .bishop => 3
  | .rook => 5
  | .queen => 9
  | .king => 100

/-- `evaluateBoard`: static evaluation (positive favors black). -/
def evaluateBoard (b : Board) (enPassantTarget : Option Position)
    (castlingRights : Option CastlingRights) : ℚ :=
  if isCheckmate b .white enPassantTarget castlingRights then 10000
  else if isCheckmate b .black enPassantTarget castlingRights then -10000
  else
    let rows := rowsOf b
    let cols := colsOf b
    let centerCol := cols / 2
    let centerRow := rows / 2
    let checkScore : ℚ :=
      (if isKingInCheck b .white then 50 else 0) +
        (if isKingInCheck b .black then -50 else 0)
    let pieceScore : ℚ :=
      ((List.range rows).map fun r =>
        ((List.range cols).map fun c =>
          match cellAt b (r : Int) (c : Int) with
          | some piece =>
            let value := pieceValues piece.type
            let centerBonus : ℚ :=
              ((centerCol : ℚ) - |(centerCol : ℚ) - (c : ℚ)|) * (1 / 10) +
                ((centerRow : ℚ) - |(centerRow : ℚ) - (r : ℚ)|) * (1 / 20)
            (if piece.color = .black then value else -value) +
              (if piece.color = .black then centerBonus else -centerBonus)
          | none => 0).sum).sum
    checkScore + pieceScore

/-- The child positions the search expands: execute each generated move
(the AI always promotes to queen). -/
def childResults (b : Board) (color : PieceColor) (enPassantTarget : Option Position)
    (castlingRights : CastlingRights) : List MoveResult :=
  (getAllMoves b color enPassantTarget (some castlingRights)).map fun mv =>
    executeMove b mv.fromPos mv.toPos castlingRights enPassantTarget .queen

/-- The maximizing loop of `minimax`: fold `max` into `maxEval` and `alpha`,
breaking as soon as `beta <= alpha`. -/
def abMaxAux (fEv : MoveResult → Score → Score → Score) :
    List MoveResult → Score → Score → Score → Score
  | [], maxEval, _, _ => maxEval
  | r :: rest, maxEval, alpha, beta =>
    let ev := fEv r alpha beta
    let maxEval' := max maxEval ev
    let alpha' := max alpha ev
    if beta ≤ alpha' then maxEval' else abMaxAux fEv rest maxEval' alpha' beta

/-- The minimizing loop of `minimax`. -/
def abMinAux (fEv : MoveResult → Score → Score → Score) :
    List MoveResult → Score → Score → Score → Score
  | [], minEval, _, _ => minEval
  | r :: rest, minEval, alpha, beta =>
    let ev := fEv r alpha beta
    let minEval' := min minEval ev
    let beta' := min beta ev
    if beta' ≤ alpha then minEval' else abMinAux fEv rest minEval' alpha beta'

/-- `minimax` with alpha-beta pruning (maximizing side is black). -/
def minimax (b : Board) (depth : Nat) (alpha beta : Score) (isMaximizing : Bool)
    (enPassantTarget : Option Position) (castlingRights : CastlingRights) : Score :=
  match depth with
  | 0 => .fin (evaluateBoard b enPassantTarget (some castlingRights))
  | d + 1 =>
    let color : PieceColor := if isMaximizing then .black else .white
    if isCheckmate b color enPassantTarget (some castlingRights) then
      if isMaximizing then .fin (-10000) else .fin 10000
    else
      let children := childResults b color enPassantTarget castlingRights
      if children.isEmpty then .fin 0
      else if isMaximizing then
        abMaxAux
          (fun r a bb =>
            minimax r.newBoard d a bb false r.newEnPassantTarget r.newCastlingRights)
          children .negInf alpha beta
      else
        abMinAux
          (fun r a bb =>
            minimax r.newBoard d a bb true r.newEnPassantTarget r.newCastlingRights)
          children .posInf alpha beta

/-- Brute-force unpruned minimax over the same game tree, for comparison
with the alpha-beta search (modelled from the spec's "brute-force
(unpruned) minimax over the same tree"). -/
def minimaxBF (b : Board) (depth : Nat) (isMaximizing : Bool)
    (enPassantTarget : Option Position) (castlingRights : CastlingRights) : Score :=
  match depth with
  | 0 => .fin (evaluateBoard b enPassantTarget (some castlingRights))
  | d + 1 =>
    let color : PieceColor := if isMaximizing then .black else .white
    if isCheckmate b color enPassantTarget (some castlingRights) then
      if isMaximizing then .fin (-10000) else .fin 10000
    else
      let children := childResults b color enPassantTarget castlingRights
      if children.isEmpty then .fin 0
      else if isMaximizing then
        children.foldl
          (fun acc r =>
            max acc
              (minimaxBF r.newBoard d false r.newEnPassantTarget r.newCastlingRights))
          .negInf
      else
        children.foldl
          (fun acc r =>
            min acc
              (minimaxBF r.newBoard d true r.newEnPassantTarget r.newCastlingRights))
          .posInf

/-- The selection loop of `getAIMove`: keep the move whose randomness-
adjusted score strictly beats the best so far (`randoms` supplies one
`Math.random() * 0.5` factor per candidate; `[]` disables randomness). -/
def aiSelect (b : Board) (difficulty : Nat) (enPassantTarget : Option Position)
    (castlingRights : CastlingRights) :
    List MoveCand → List ℚ → MoveCand → Score → MoveCand
  | [], _, bestMove, _ => bestMove
  | mv :: rest, randoms, bestMove, bestScore =>
    let result := executeMove b mv.fromPos mv.toPos castlingRights enPassantTarget .queen
    let score :=
      minimax result.newBoard difficulty .negInf .posInf false result.newEnPassantTarget
        result.newCastlingRights
    let adjustedScore := score.addQ (randoms.headD 0)
    if bestScore < adjustedScore then
      aiSelect b difficulty enPassantTarget castlingRights rest randoms.tail mv
        adjustedScore
    else
      aiSelect b difficulty enPassantTarget castlingRights rest randoms.tail bestMove
        bestScore

/-- `getAIMove`, with the per-candidate random factors made an explicit
argument (an empty list models the randomness disabled). -/
def getAIMove (b : Board) (difficulty : Nat) (enPassantTarget : Option Position)
    (castlingRights : CastlingRights) (randoms : List ℚ) : Option MoveCand :=
  let moves := getAllMoves b .black enPassantTarget (some castlingRights)
  match moves with
  | [] => none
  | m0 :: _ =>
    some (aiSelect b difficulty enPassantTarget castlingRights moves randoms m0 .negInf)

/-! ### Strict access-tracking variants

These mirror `isPathClear`, `isValidMoveBasic` and `isValidMove` but route
every board-array access performed in those three function bodies through a
bounds-checked read that fails (`none`) on any out-of-range index, so that
totality of the originals under the in-bounds-source precondition can be
stated.  Calls into helper functions (`canCastle`,
`wouldMoveLeaveKingInCheck`) use the plain versions: their accesses are
performed by those helpers, not by the three functions themselves. -/

/-- `board[r][c]` as a strict read: fails on any out-of-range index (the
column range is the actual row's length, as for a JS array read). -/
def cellAtOB (b : Board) (r c : Int) : Option (Option ChessPiece) :=
  if 0 ≤ r ∧ r < (rowsOf b : Int) ∧ 0 ≤ c ∧ c < ((b.getD r.toNat []).length : Int) then
    some ((b.getD r.toNat []).getD c.toNat none)
  else none

/-- Short-circuiting conjunction over strict square reads (the source path
walk stops at the first blocked square). -/
def optAll (f : Nat → Option Bool) : List Nat → Option Bool
  | [] => some true
  | i :: rest =>
    match f i with
    | none => none
    | some b => if b then optAll f rest else some false

/-- `isPathClear` with strict square reads. -/
def isPathClearOB (b : Board) (f t : Position) : Option Bool :=
  let rowDir := Int.sign (t.row - f.row)
  let colDir := Int.sign (t.col - f.col)
  let steps := max (t.row - f.row).natAbs (t.col - f.col).natAbs
  optAll
    (fun i =>
      (cellAtOB b (f.row + rowDir * ((i : Int) + 1))
          (f.col + colDir * ((i : Int) + 1))).map Option.isNone)
    (List.range (steps - 1))

/-- `isValidMoveBasic` with strict board-array reads (including the
`board[0]` read that computes the column count). -/
def isValidMoveBasicOB (b : Board) (f t : Position) (enPassantTarget : Option Position)
    (castlingRights : Option CastlingRights) : Option Bool :=
  if rowsOf b = 0 then none
  else
    let rows := (rowsOf b : Int)
    let cols := (colsOf b : Int)
    if t.row < 0 ∨ rows ≤ t.row ∨ t.col < 0 ∨ cols ≤ t.col then some false
    else
      (cellAtOB b f.row f.col).bind fun pieceOpt =>
        match pieceOpt with
        | none => some false
        | some piece =>
          (cellAtOB b t.row t.col).bind fun target =>
            if target.any fun tp => tp.color = piece.color then some false
            else if f.row = t.row ∧ f.col = t.col then some false
            else
              let rowDiff := t.row - f.row
              let colDiff := t.col - f.col
              let absRowDiff := rowDiff.natAbs
              let absColDiff := colDiff.natAbs
              let whiteStartRow := rows - 2
              let blackStartRow : Int := 1
              match piece.type with
              | .pawn =>
                let direction : Int := if piece.color = .white then -1 else 1
                let startRow :=
                  if piece.color = .white then whiteStartRow else blackStartRow
                let captureGeometry := decide (absColDiff = 1 ∧ rowDiff = direction)
                let capture :=
                  captureGeometry &&
                    (target.isSome ||
                      (match enPassantTarget with
                       | some e => decide (t.row = e.row ∧ t.col = e.col)
                       | none => false))
                if colDiff = 0 ∧ target = none then
                  if rowDiff = direction then some true
                  else if f.row = startRow ∧ rowDiff = 2 * direction then
                    (cellAtOB b (f.row + direction) f.col).bind fun mid =>
                      if mid = none then some true else some capture
                  else some capture
                else some capture
              | .knight =>
                some (decide
                  ((absRowDiff = 2 ∧ absColDiff = 1) ∨ (absRowDiff = 1 ∧ absColDiff = 2)))
              | .bishop =>
                if absRowDiff ≠ absColDiff then some false else isPathClearOB b f t
              | .rook =>
                if rowDiff ≠ 0 ∧ colDiff ≠ 0 then some false else isPathClearOB b f t
              | .queen =>
                if absRowDiff ≠ absColDiff ∧ rowDiff ≠ 0 ∧ colDiff ≠ 0 then some false
                else isPathClearOB b f t
              | .king =>
                if absRowDiff ≤ 1 ∧ absColDiff ≤ 1 then some true
                else
                  match castlingRights with
                  | some rights =>
                    some (decide (absRowDiff = 0 ∧ absColDiff = 2) &&
                      canCastle b f t piece.color rights)
                  | none => some false

/-- `isValidMove` with strict board-array reads for the accesses in its own
body (the source square is read before any bounds check). -/
def isValidMoveOB (b : Board) (f t : Position) (enPassantTarget : Option Position)
    (castlingRights : Option CastlingRights) : Option Bool :=
  (cellAtOB b f.row f.col).bind fun pieceOpt =>
    match pieceOpt with
    | none => some false
    | some piece =>
      (isValidMoveBasicOB b f t enPassantTarget castlingRights).bind fun basic =>
        if !basic then some false
        else if wouldMoveLeaveKingInCheck b f t piece.color enPassantTarget then
          some false
        else some true

/-! ### Specification-side predicates

Each of these renders a claim's natural-language characterization, for
comparison with the corresponding engine definition. -/

/-- The castling precondition as the specification words it: king on its
home square, the relevant right granted, king not in check, the right
rook on its home corner, the squares strictly between king and rook empty,
and the two transit/landing squares not attacked. -/
def canCastleSpec (b : Board) (f t : Position) (color : PieceColor)
    (cr : CastlingRights) : Prop :=
  let rows := (rowsOf b : Int)
  let homeRow : Int := if color = .white then rows - 1 else 0
  let kingside := f.col < t.col
  let rookCol : Int := if kingside then 8 else 0
  let dir : Int := if kingside then 1 else -1
  f.row = homeRow ∧ f.col = 4 ∧
    (if color = .white then
       (if kingside then cr.whiteKingside else cr.whiteQueenside)
     else
       (if kingside then cr.blackKingside else cr.blackQueenside)) = true ∧
    isKingInCheck b color = false ∧
    cellAt b homeRow rookCol = some ⟨.rook, color⟩ ∧
    (∀ c : Nat, c < 9 → min 4 rookCol < (c : Int) → (c : Int) < max 4 rookCol →
      cellAt b homeRow c = none) ∧
    isSquareUnderAttack b ⟨homeRow, 4 + dir⟩ color.other = false ∧
    isSquareUnderAttack b ⟨homeRow, 4 + dir * 2⟩ color.other = false

instance (b : Board) (f t : Position) (color : PieceColor) (cr : CastlingRights) :
    Decidable (canCastleSpec b f t color cr) := by
  unfold canCastleSpec; infer_instance

/-- The insufficient-material condition exactly as claimed: two lone kings,
or two kings plus a single bishop/knight, or exactly four pieces that are
two kings plus two same-square-parity bishops. -/
def insufficientClaimC3 (b : Board) : Prop :=
  let ps := piecesOn b
  (ps.length = 2 ∧ ∀ p ∈ ps, p.1.type = PieceType.king) ∨
    (ps.length = 3 ∧ (ps.filter fun p => p.1.type ≠ PieceType.king).length = 1 ∧
      ∀ p ∈ ps.filter fun p => p.1.type ≠ PieceType.king,
        p.1.type = PieceType.bishop ∨ p.1.type = PieceType.knight) ∨
    (ps.length = 4 ∧ (ps.filter fun p => p.1.type = PieceType.king).length = 2 ∧
      (ps.filter fun p => p.1.type = PieceType.bishop).length = 2 ∧
      ∀ p ∈ ps.filter (fun p => p.1.type = PieceType.bishop),
        ∀ q ∈ ps.filter (fun p => p.1.type = PieceType.bishop),
          (p.2.row + p.2.col) % 2 = (q.2.row + q.2.col) % 2)

instance (b : Board) : Decidable (insufficientClaimC3 b) := by
  unfold insufficientClaimC3; infer_instance

/-- The amended four-piece condition: exactly two of the four pieces are
bishops with equal square parity (the other two need not be kings). -/
def insufficientAmended (b : Board) : Prop :=
  let ps := piecesOn b
  (ps.length = 2 ∧ ∀ p ∈ ps, p.1.type = PieceType.king) ∨
    (ps.length = 3 ∧ (ps.filter fun p => p.1.type ≠ PieceType.king).length = 1 ∧
      ∀ p ∈ ps.filter fun p => p.1.type ≠ PieceType.king,
        p.1.type = PieceType.bishop ∨ p.1.type = PieceType.knight) ∨
    (ps.length = 4 ∧ (ps.filter fun p => p.1.type = PieceType.bishop).length = 2 ∧
      ∀ p ∈ ps.filter (fun p => p.1.type = PieceType.bishop),
        ∀ q ∈ ps.filter (fun p => p.1.type = PieceType.bishop),
          (p.2.row + p.2.col) % 2 = (q.2.row + q.2.col) % 2)

instance (b : Board) : Decidable (insufficientAmended b) := by
  unfold insufficientAmended; infer_instance

/-- First-matching-reason selection over an ordered list of draw
conditions (the claimed dispatch discipline of `getDrawStatus`). -/
def firstHold (conds : List (Bool × DrawReason)) : DrawStatus :=
  match conds.find? fun c => c.1 with
  | some c => ⟨true, some c.2⟩
  | none => ⟨false, none⟩

/-- The en passant target exactly as claimed: set only for a pawn
*advancing* two rows (toward row 0 for white, away for black), and then
equal to the skipped intermediate square. -/
def epClaimTarget (b : Board) (f t : Position) : Option Position :=
  match cellAt b f.row f.col with
  | some p =>
    if p.type = .pawn ∧
        (if p.color = .white then t.row = f.row - 2 else t.row = f.row + 2) then
      some ⟨(f.row + t.row) / 2, t.col⟩
    else none
  | none => none

/-- The en passant target as the code computes it: set for a pawn whose row
changed by exactly two in either direction, at the square adjacent to the
destination on the side toward the mover's own back rank. -/
def epAmendedTarget (b : Board) (f t : Position) : Option Position :=
  match cellAt b f.row f.col with
  | some p =>
    if p.type = .pawn ∧ (t.row - f.row).natAbs = 2 then
      some ⟨if p.color = .white then t.row + 1 else t.row - 1, t.col⟩
    else none
  | none => none

/-- A side/direction castling right is cleared by a move exactly when that
side's king moves, that side's matching rook moves from its home corner, or
a matching rook is captured on that corner (`cap` is the move's captured
piece). -/
def clearsRight (b : Board) (f t : Position) (cap : Option ChessPiece)
    (color : PieceColor) (kingside : Bool) : Prop :=
  let rows := (rowsOf b : Int)
  let homeRow : Int := if color = .white then rows - 1 else 0
  let homeCol : Int := if kingside then 8 else 0
  cellAt b f.row f.col = some ⟨.king, color⟩ ∨
    (cellAt b f.row f.col = some ⟨.rook, color⟩ ∧ f.row = homeRow ∧ f.col = homeCol) ∨
    (cap = some ⟨.rook, color⟩ ∧ t.row = homeRow ∧ t.col = homeCol)

instance (b : Board) (f t : Position) (cap : Option ChessPiece) (color : PieceColor)
    (kingside : Bool) : Decidable (clearsRight b f t cap color kingside) := by
  unfold clearsRight; infer_instance

/-- Deterministic AI move selection as specified: the first generated move
whose brute-force minimax score is maximal. -/
def getAIMoveSpec (b : Board) (difficulty : Nat) (enPassantTarget : Option Position)
    (castlingRights : CastlingRights) : Option MoveCand :=
  let moves := getAllMoves b .black enPassantTarget (some castlingRights)
  let score := fun (mv : MoveCand) =>
    let r := executeMove b mv.fromPos mv.toPos castlingRights enPassantTarget .queen
    minimaxBF r.newBoard difficulty false r.newEnPassantTarget r.newCastlingRights
  moves.find? fun mv => moves.all fun mv' => decide (score mv' ≤ score mv)

/-! ### Concrete test positions used by counterexamples and witnesses -/

/-- 3×2 board: black king (0,1), white pawn (1,0), white king (2,0). -/
def tinyBoard : Board :=
  [[none, some ⟨.king, .black⟩],
   [some ⟨.pawn, .white⟩, none],
   [some ⟨.king, .white⟩, none]]

/-- 1×1 board holding a lone black king. -/
def oneKingBoard : Board := [[some ⟨.king, .black⟩]]

/-- 1×1 board holding a lone black knight. -/
def oneKnightBoard : Board := [[some ⟨.knight, .black⟩]]

/-- 1×7 board: two white bishops on same-parity squares and two knights —
four pieces, none of them kings. -/
def fourPieceBoard : Board :=
  [[some ⟨.bishop, .white⟩, none, some ⟨.bishop, .white⟩, none,
    some ⟨.knight, .white⟩, none, some ⟨.knight, .white⟩]]

/-- 8×1 board with a white pawn on row 3 (used for a backward double
step). -/
def pawnColumnBoard : Board :=
  [[none], [none], [none], [some ⟨.pawn, .white⟩], [none], [none], [none], [none]]

/-- 3×9 board: black king (0,0), white king (2,4), white rook (2,8) — a
legal white kingside castling position. -/
def castleBoard : Board :=
  [[some ⟨.king, .black⟩, none, none, none, none, none, none, none, none],
   [none, none, none, none, none, none, none, none, none],
   [none, none, none, none, some ⟨.king, .white⟩, none, none, none,
    some ⟨.rook, .white⟩]]

/-- All four castling rights granted. -/
def allRights : CastlingRights := ⟨true, true, true, true⟩

/-! ### Board access lemmas -/

theorem rowsOf_setCell (b : Board) (r c : Int) (v : Option ChessPiece) :
    rowsOf (setCell b r c v) = rowsOf b := by
  unfold rowsOf setCell
  split <;> simp

theorem colsOf_setCell (b : Board) (r c : Int) (v : Option ChessPiece) :
    colsOf (setCell b r c v) = colsOf b := by
  unfold colsOf setCell
  split
  · rcases b with _ | ⟨row0, rest⟩
    · simp
    · rcases hr : r.toNat with _ | n
      · simp [hr, List.set]
      · simp [hr, List.set]
  · rfl

theorem cellAt_setCell_other (b : Board) (r c r' c' : Int) (v : Option ChessPiece)
    (h : r' ≠ r ∨ c' ≠ c) :
    cellAt (setCell b r c v) r' c' = cellAt b r' c' := by
  unfold cellAt setCell
  by_cases hrc : 0 ≤ r ∧ 0 ≤ c
  case neg => simp only [if_neg hrc]
  by_cases hrc' : 0 ≤ r' ∧ 0 ≤ c'
  case neg => simp only [if_pos hrc, if_neg hrc']
  simp only [if_pos hrc, if_pos hrc', List.getD_eq_getElem?_getD]
  rw [List.getElem?_set]
  by_cases hr : r.toNat = r'.toNat
  · have hcc : c' ≠ c := by
      rcases h with h | h
      · exact absurd (by omega : r' = r) h
      · exact h
    have hcn : c.toNat ≠ c'.toNat := by omega
    simp only [if_pos hr]
    by_cases hlen : r.toNat < b.length
    · simp only [if_pos hlen, Option.getD_some]
      rw [List.getElem?_set_ne hcn, hr]
    · simp only [if_neg hlen, Option.getD_none]
      have hnone : b[r'.toNat]? = (none : Option (List (Option ChessPiece))) :=
        List.getElem?_eq_none (by omega)
      rw [hnone]
      simp
  · simp only [if_neg hr]

theorem cellAt_setCell_self (b : Board) (r c : Int) (v : Option ChessPiece)
    (h0 : 0 ≤ r) (h1 : r < (rowsOf b : Int)) (h2 : 0 ≤ c)
    (h3 : c < ((b.getD r.toNat []).length : Int)) :
    cellAt (setCell b r c v) r c = v := by
  unfold rowsOf at h1
  rw [List.getD_eq_getElem?_getD] at h3
  have hg : 0 ≤ r ∧ 0 ≤ c := ⟨h0, h2⟩
  have hrl : r.toNat < b.length := by omega
  have hcl : c.toNat < (b[r.toNat]?.getD []).length := by omega
  unfold cellAt setCell
  simp [if_pos hg, List.getD_eq_getElem?_getD, List.getElem?_set, hrl, hcl]
  rw [List.getElem?_eq_getElem hrl] at hcl
  simp only [Option.getD_some] at hcl
  simp [hcl]

/-! ### C8: execution with an empty source square is a silent no-op -/

/-- C8: when the source square is a real square holding no piece,
`executeMove` returns the input board unchanged with no capture and
unchanged castling rights, and `isValidMove` rejects every such move. -/
theorem c8_missing_source_noop (b : Board) (f t : Position) (cr : CastlingRights)
    (ep : Option Position) (promo : PromotionPiece)
    (hin : inBoundsB b f) (h : cellAt b f.row f.col = none) :
    (executeMove b f t cr ep promo).newBoard = b ∧
      (executeMove b f t cr ep promo).captured = none ∧
      (executeMove b f t cr ep promo).newCastlingRights = cr ∧
      ∀ (ep' : Option Position) (cr' : Option CastlingRights),
        isValidMove b f t ep' cr' = false := by
  refine ⟨?_, ?_, ?_, fun ep' cr' => ?_⟩ <;> simp [executeMove, isValidMove, h]

theorem c8_missing_source_noop_witness :
    (executeMove tinyBoard ⟨0, 0⟩ ⟨1, 1⟩ allRights none .queen).newBoard = tinyBoard ∧
      (executeMove tinyBoard ⟨0, 0⟩ ⟨1, 1⟩ allRights none .queen).captured = none ∧
      (executeMove tinyBoard ⟨0, 0⟩ ⟨1, 1⟩ allRights none
          .queen).newCastlingRights = allRights ∧
      ∀ (ep' : Option Position) (cr' : Option CastlingRights),
        isValidMove tinyBoard ⟨0, 0⟩ ⟨1, 1⟩ ep' cr' = false :=
  c8_missing_source_noop tinyBoard ⟨0, 0⟩ ⟨1, 1⟩ allRights none .queen
    (by decide) (by decide)

/-! ### C5: draw-status dispatch order -/

/-- C5: `getDrawStatus` reports exactly the first of
stalemate / threefold (signature at least twice in history) /
fifty-move (clock at least 100) / insufficient material that holds, and
no draw with reason `none` otherwise. -/
theorem c5_draw_status_first_reason (b : Board) (currentPlayer : PieceColor)
    (enPassantTarget : Option Position) (castlingRights : CastlingRights)
    (positionHistory : List String) (halfMoveClock : Int) :
    getDrawStatus b currentPlayer enPassantTarget castlingRights positionHistory
        halfMoveClock =
      firstHold
        [(isStalemate b currentPlayer enPassantTarget (some castlingRights),
            .stalemate),
          (decide ((positionHistory.filter fun pos =>
              pos = getBoardPositionHash b currentPlayer castlingRights
                enPassantTarget).length ≥ 2), .threefold),
          (decide (100 ≤ halfMoveClock), .fiftyMove),
          (isInsufficientMaterial b, .insufficient)] := by
  by_cases h1 : isStalemate b currentPlayer enPassantTarget (some castlingRights) = true
  case pos => simp [getDrawStatus, firstHold, h1, List.find?]
  case neg =>
    by_cases h2 : 2 ≤ (positionHistory.filter fun pos =>
        pos = getBoardPositionHash b currentPlayer castlingRights enPassantTarget).length
    case pos =>
      simp [getDrawStatus, firstHold, isThreefoldRepetition, h1, h2, List.find?]
    case neg =>
      by_cases h3 : (100 : Int) ≤ halfMoveClock
      case pos =>
        simp [getDrawStatus, firstHold, isThreefoldRepetition, isFiftyMoveRule, h1, h2,
          h3, List.find?]
      case neg =>
        by_cases h4 : isInsufficientMaterial b = true <;>
          simp [getDrawStatus, firstHold, isThreefoldRepetition, isFiftyMoveRule, h1,
            h2, h3, h4, List.find?]

/-! ### C4: the position signature is not injective (king vs knight) -/

/-- C4 (failing input): a lone black king and a lone black knight on the
same square produce identical position signatures, because the encoding
takes the first letter of the piece-type name and both `king` and `knight`
start with `k`; the boards nevertheless differ.  This contradicts the
claimed injectivity in every differing field (and the code's own
"unique string representation" contract). -/
theorem c4_hash_collision :
    getBoardPositionHash oneKingBoard .white allRights none =
        getBoardPositionHash oneKnightBoard .white allRights none ∧
      oneKingBoard ≠ oneKnightBoard := by
  constructor
  · rfl
  · decide

/-! ### C7: the en passant target after a move -/

/-- C7 (counterexample): a white pawn moved two rows *backward* (away from
row 0) still gets an en passant target — and not the intermediate square —
so the claimed "set iff the pawn advanced two rows, to the skipped square"
fails as stated. -/
theorem c7_counterexample :
    (executeMove pawnColumnBoard ⟨3, 0⟩ ⟨5, 0⟩ allRights none .queen).newEnPassantTarget ≠
      epClaimTarget pawnColumnBoard ⟨3, 0⟩ ⟨5, 0⟩ := by
  decide

/-- C7 (amended): the returned en passant target is set iff the moved piece
was a pawn whose row changed by exactly two (in either direction), and then
equals the square adjacent to the destination toward the mover's own back
rank (row + 1 for white, row − 1 for black), regardless of the incoming
target. -/
theorem c7_en_passant_target (b : Board) (f t : Position) (cr : CastlingRights)
    (ep : Option Position) (promo : PromotionPiece) :
    (executeMove b f t cr ep promo).newEnPassantTarget = epAmendedTarget b f t := by
  unfold executeMove epAmendedTarget
  cases hp : cellAt b f.row f.col <;> simp

/-! ### C3: insufficient material -/

/-- C3 (counterexample): four pieces, none of them kings — two white
bishops on same-parity squares plus two knights — are declared insufficient
by the code, though the claim says any four-piece configuration other than
two kings plus two same-parity bishops must not be. -/
theorem c3_counterexample :
    isInsufficientMaterial fourPieceBoard = true ∧
      ¬ insufficientClaimC3 fourPieceBoard := by
  constructor
  · decide
  · decide

/-- C3 (amended): `isInsufficientMaterial` is true iff there are exactly
two pieces, both kings; or exactly three pieces whose single non-king is a
bishop or knight; or exactly four pieces of which exactly two are bishops
and those bishops' squares have equal (row+col) parity — the remaining two
pieces of a four-piece position are not required to be kings. -/
theorem c3_insufficient_material (b : Board) :
    isInsufficientMaterial b = true ↔ insufficientAmended b := by
  unfold isInsufficientMaterial insufficientAmended
  by_cases h2 : (piecesOn b).length = 2
  · simp [h2, List.all_eq_true]
  · by_cases h3 : (piecesOn b).length = 3
    · rcases hf : (piecesOn b).filter (fun p => p.1.type ≠ PieceType.king) with _ | ⟨p, t⟩
      · simp only [decide_not] at hf
        simp [h2, h3, hf]
      · rcases t with _ | ⟨q, t2⟩
        · simp only [decide_not] at hf
          simp [h2, h3, hf]
        · simp only [decide_not] at hf
          simp [h2, h3, hf]
    · by_cases h4 : (piecesOn b).length = 4
      · rcases hf : (piecesOn b).filter (fun p => p.1.type = PieceType.bishop) with
          _ | ⟨x, t⟩
        · simp [h2, h3, h4, hf]
        · rcases t with _ | ⟨y, t2⟩
          · simp [h2, h3, h4, hf]
          · rcases t2 with _ | ⟨z, t3⟩
            · simp [h2, h3, h4, hf]
              exact fun h => h.symm
            · simp [h2, h3, h4, hf]
      · simp [h2, h3, h4]

/-! ### C6: castling rights are monotone and cleared exactly as specified -/

theorem clearRightsKingMoved_eq (p : ChessPiece) (cr : CastlingRights) :
    clearRightsKingMoved p cr =
      ⟨cr.whiteKingside && !decide (p.type = .king ∧ p.color = .white),
        cr.whiteQueenside && !decide (p.type = .king ∧ p.color = .white),
        cr.blackKingside && !decide (p.type = .king ∧ p.color = .black),
        cr.blackQueenside && !decide (p.type = .king ∧ p.color = .black)⟩ := by
  obtain ⟨wk, wq, bk, bq⟩ := cr
  obtain ⟨pt, pc⟩ := p
  cases pc <;> (unfold clearRightsKingMoved; split_ifs <;> simp_all <;> tauto)

theorem clearRightsRookMoved_eq (rows : Int) (p : ChessPiece) (f : Position)
    (cr : CastlingRights) :
    clearRightsRookMoved rows p f cr =
      ⟨cr.whiteKingside &&
          !decide (p.type = .rook ∧ p.color = .white ∧ f.col = 8 ∧ f.row = rows - 1),
        cr.whiteQueenside &&
          !decide (p.type = .rook ∧ p.color = .white ∧ f.col = 0 ∧ f.row = rows - 1),
        cr.blackKingside &&
          !decide (p.type = .rook ∧ p.color = .black ∧ f.col = 8 ∧ f.row = 0),
        cr.blackQueenside &&
          !decide (p.type = .rook ∧ p.color = .black ∧ f.col = 0 ∧ f.row = 0)⟩ := by
  obtain ⟨wk, wq, bk, bq⟩ := cr
  obtain ⟨pt, pc⟩ := p
  cases pc <;> (unfold clearRightsRookMoved; split_ifs <;> simp_all <;> tauto)

theorem clearRightsRookCaptured_eq (rows : Int) (captured : Option ChessPiece)
    (t : Position) (cr : CastlingRights) :
    clearRightsRookCaptured rows captured t cr =
      ⟨cr.whiteKingside &&
          !decide (captured = some ⟨.rook, .white⟩ ∧ t.col = 8 ∧ t.row = rows - 1),
        cr.whiteQueenside &&
          !decide (captured = some ⟨.rook, .white⟩ ∧ t.col = 0 ∧ t.row = rows - 1),
        cr.blackKingside &&
          !decide (captured = some ⟨.rook, .black⟩ ∧ t.col = 8 ∧ t.row = 0),
        cr.blackQueenside &&
          !decide (captured = some ⟨.rook, .black⟩ ∧ t.col = 0 ∧ t.row = 0)⟩ := by
  obtain ⟨wk, wq, bk, bq⟩ := cr
  unfold clearRightsRookCaptured
  rcases captured with _ | ⟨ct, cc⟩
  · simp
  · cases cc <;> by_cases hct : ct = PieceType.rook <;>
      (split_ifs <;> simp_all <;> tauto)

/-- `executeMove`'s castling-rights output is the three-stage clearing
pipeline applied to the input rights. -/
theorem executeMove_rights (b : Board) (f t : Position) (cr : CastlingRights)
    (ep : Option Position) (promo : PromotionPiece) (p : ChessPiece)
    (hp : cellAt b f.row f.col = some p) :
    (executeMove b f t cr ep promo).newCastlingRights =
      clearRightsRookCaptured (rowsOf b : Int) (executeMove b f t cr ep promo).captured
        t (clearRightsRookMoved (rowsOf b : Int) p f (clearRightsKingMoved p cr)) := by
  simp only [executeMove, hp]

theorem rights_pipeline_wk (rows : Int) (p : ChessPiece) (f t : Position)
    (cap : Option ChessPiece) (cr : CastlingRights) :
    (clearRightsRookCaptured rows cap t
        (clearRightsRookMoved rows p f (clearRightsKingMoved p cr))).whiteKingside =
      (cr.whiteKingside &&
        !decide ((p.type = PieceType.king ∧ p.color = PieceColor.white) ∨
          (p.type = PieceType.rook ∧ p.color = PieceColor.white ∧ f.col = 8 ∧
            f.row = rows - 1) ∨
          (cap = some ⟨.rook, .white⟩ ∧ t.col = 8 ∧ t.row = rows - 1))) := by
  rw [clearRightsKingMoved_eq, clearRightsRookMoved_eq, clearRightsRookCaptured_eq]
  rw [Bool.eq_iff_iff]
  simp [Bool.and_eq_true, Bool.not_eq_true', decide_eq_false_iff_not]
  tauto

theorem rights_pipeline_wq (rows : Int) (p : ChessPiece) (f t : Position)
    (cap : Option ChessPiece) (cr : CastlingRights) :
    (clearRightsRookCaptured rows cap t
        (clearRightsRookMoved rows p f (clearRightsKingMoved p cr))).whiteQueenside =
      (cr.whiteQueenside &&
        !decide ((p.type = PieceType.king ∧ p.color = PieceColor.white) ∨
          (p.type = PieceType.rook ∧ p.color = PieceColor.white ∧ f.col = 0 ∧
            f.row = rows - 1) ∨
          (cap = some ⟨.rook, .white⟩ ∧ t.col = 0 ∧ t.row = rows - 1))) := by
  rw [clearRightsKingMoved_eq, clearRightsRookMoved_eq, clearRightsRookCaptured_eq]
  rw [Bool.eq_iff_iff]
  simp [Bool.and_eq_true, Bool.not_eq_true', decide_eq_false_iff_not]
  tauto

theorem rights_pipeline_bk (rows : Int) (p : ChessPiece) (f t : Position)
    (cap : Option ChessPiece) (cr : CastlingRights) :
    (clearRightsRookCaptured rows cap t
        (clearRightsRookMoved rows p f (clearRightsKingMoved p cr))).blackKingside =
      (cr.blackKingside &&
        !decide ((p.type = PieceType.king ∧ p.color = PieceColor.black) ∨
          (p.type = PieceType.rook ∧ p.color = PieceColor.black ∧ f.col = 8 ∧
            f.row = 0) ∨
          (cap = some ⟨.rook, .black⟩ ∧ t.col = 8 ∧ t.row = 0))) := by
  rw [clearRightsKingMoved_eq, clearRightsRookMoved_eq, clearRightsRookCaptured_eq]
  rw [Bool.eq_iff_iff]
  simp [Bool.and_eq_true, Bool.not_eq_true', decide_eq_false_iff_not]
  tauto

theorem rights_pipeline_bq (rows : Int) (p : ChessPiece) (f t : Position)
    (cap : Option ChessPiece) (cr : CastlingRights) :
    (clearRightsRookCaptured rows cap t
        (clearRightsRookMoved rows p f (clearRightsKingMoved p cr))).blackQueenside =
      (cr.blackQueenside &&
        !decide ((p.type = PieceType.king ∧ p.color = PieceColor.black) ∨
          (p.type = PieceType.rook ∧ p.color = PieceColor.black ∧ f.col = 0 ∧
            f.row = 0) ∨
          (cap = some ⟨.rook, .black⟩ ∧ t.col = 0 ∧ t.row = 0))) := by
  rw [clearRightsKingMoved_eq, clearRightsRookMoved_eq, clearRightsRookCaptured_eq]
  rw [Bool.eq_iff_iff]
  simp [Bool.and_eq_true, Bool.not_eq_true', decide_eq_false_iff_not]
  tauto

/-- C6: each output castling-rights flag of `executeMove` equals the input
flag conjoined with "this move does not clear it" (clearing happens exactly
when that side's king moves, that side's matching rook moves from its home
corner, or a matching rook is captured on that corner), and hence each
output flag implies the corresponding input flag (rights are never
restored). -/
theorem c6_castling_rights (b : Board) (f t : Position) (cr : CastlingRights)
    (ep : Option Position) (promo : PromotionPiece) :
    ((executeMove b f t cr ep promo).newCastlingRights.whiteKingside =
        (cr.whiteKingside &&
          !decide (clearsRight b f t (executeMove b f t cr ep promo).captured
            .white true))) ∧
      ((executeMove b f t cr ep promo).newCastlingRights.whiteQueenside =
        (cr.whiteQueenside &&
          !decide (clearsRight b f t (executeMove b f t cr ep promo).captured
            .white false))) ∧
      ((executeMove b f t cr ep promo).newCastlingRights.blackKingside =
        (cr.blackKingside &&
          !decide (clearsRight b f t (executeMove b f t cr ep promo).captured
            .black true))) ∧
      ((executeMove b f t cr ep promo).newCastlingRights.blackQueenside =
        (cr.blackQueenside &&
          !decide (clearsRight b f t (executeMove b f t cr ep promo).captured
            .black false))) ∧
      ((executeMove b f t cr ep promo).newCastlingRights.whiteKingside = true →
        cr.whiteKingside = true) ∧
      ((executeMove b f t cr ep promo).newCastlingRights.whiteQueenside = true →
        cr.whiteQueenside = true) ∧
      ((executeMove b f t cr ep promo).newCastlingRights.blackKingside = true →
        cr.blackKingside = true) ∧
      ((executeMove b f t cr ep promo).newCastlingRights.blackQueenside = true →
        cr.blackQueenside = true) := by
  cases hp : cellAt b f.row f.col with
  | none =>
    refine ⟨?_, ?_, ?_, ?_, ?_, ?_, ?_, ?_⟩ <;>
      simp [executeMove, hp, clearsRight]
  | some piece =>
    have e1 := executeMove_rights b f t cr ep promo piece hp
    have hwk : (executeMove b f t cr ep promo).newCastlingRights.whiteKingside =
        (cr.whiteKingside &&
          !decide (clearsRight b f t (executeMove b f t cr ep promo).captured
            .white true)) := by
      rw [e1, rights_pipeline_wk]
      have hiff : clearsRight b f t (executeMove b f t cr ep promo).captured
          .white true ↔
          ((piece.type = PieceType.king ∧ piece.color = PieceColor.white) ∨
            (piece.type = PieceType.rook ∧ piece.color = PieceColor.white ∧
              f.col = 8 ∧ f.row = (rowsOf b : Int) - 1) ∨
            ((executeMove b f t cr ep promo).captured = some ⟨.rook, .white⟩ ∧
              t.col = 8 ∧ t.row = (rowsOf b : Int) - 1)) := by
        obtain ⟨pt, pc⟩ := piece
        simp [clearsRight, hp]
        tauto
      rw [decide_eq_decide.mpr hiff]
    have hwq : (executeMove b f t cr ep promo).newCastlingRights.whiteQueenside =
        (cr.whiteQueenside &&
          !decide (clearsRight b f t (executeMove b f t cr ep promo).captured
            .white false)) := by
      rw [e1, rights_pipeline_wq]
      have hiff : clearsRight b f t (executeMove b f t cr ep promo).captured
          .white false ↔
          ((piece.type = PieceType.king ∧ piece.color = PieceColor.white) ∨
            (piece.type = PieceType.rook ∧ piece.color = PieceColor.white ∧
              f.col = 0 ∧ f.row = (rowsOf b : Int) - 1) ∨
            ((executeMove b f t cr ep promo).captured = some ⟨.rook, .white⟩ ∧
              t.col = 0 ∧ t.row = (rowsOf b : Int) - 1)) := by
        obtain ⟨pt, pc⟩ := piece
        simp [clearsRight, hp]
        tauto
      rw [decide_eq_decide.mpr hiff]
    have hbk : (executeMove b f t cr ep promo).newCastlingRights.blackKingside =
        (cr.blackKingside &&
          !decide (clearsRight b f t (executeMove b f t cr ep promo).captured
            .black true)) := by
      rw [e1, rights_pipeline_bk]
      have hiff : clearsRight b f t (executeMove b f t cr ep promo).captured
          .black true ↔
          ((piece.type = PieceType.king ∧ piece.color = PieceColor.black) ∨
            (piece.type = PieceType.rook ∧ piece.color = PieceColor.black ∧
              f.col = 8 ∧ f.row = 0) ∨
            ((executeMove b f t cr ep promo).captured = some ⟨.rook, .black⟩ ∧
              t.col = 8 ∧ t.row = 0)) := by
        obtain ⟨pt, pc⟩ := piece
        simp [clearsRight, hp]
        tauto
      rw [decide_eq_decide.mpr hiff]
    have hbq : (executeMove b f t cr ep promo).newCastlingRights.blackQueenside =
        (cr.blackQueenside &&
          !decide (clearsRight b f t (executeMove b f t cr ep promo).captured
            .black false)) := by
      rw [e1, rights_pipeline_bq]
      have hiff : clearsRight b f t (executeMove b f t cr ep promo).captured
          .black false ↔
          ((piece.type = PieceType.king ∧ piece.color = PieceColor.black) ∨
            (piece.type = PieceType.rook ∧ piece.color = PieceColor.black ∧
              f.col = 0 ∧ f.row = 0) ∨
            ((executeMove b f t cr ep promo).captured = some ⟨.rook, .black⟩ ∧
              t.col = 0 ∧ t.row = 0)) := by
        obtain ⟨pt, pc⟩ := piece
        simp [clearsRight, hp]
        tauto
      rw [decide_eq_decide.mpr hiff]
    refine ⟨hwk, hwq, hbk, hbq, ?_, ?_, ?_, ?_⟩
    · rw [hwk]; intro h; rw [Bool.and_eq_true] at h; exact h.1
    · rw [hwq]; intro h; rw [Bool.and_eq_true] at h; exact h.1
    · rw [hbk]; intro h; rw [Bool.and_eq_true] at h; exact h.1
    · rw [hbq]; intro h; rw [Bool.and_eq_true] at h; exact h.1

theorem c6_castling_rights_witness :
    ((executeMove castleBoard ⟨2, 4⟩ ⟨2, 6⟩ allRights none
          .queen).newCastlingRights.whiteKingside =
        (allRights.whiteKingside &&
          !decide (clearsRight castleBoard ⟨2, 4⟩ ⟨2, 6⟩
            (executeMove castleBoard ⟨2, 4⟩ ⟨2, 6⟩ allRights none .queen).captured
            .white true))) ∧
      ((executeMove castleBoard ⟨2, 4⟩ ⟨2, 6⟩ allRights none
          .queen).newCastlingRights.blackKingside = true →
        allRights.blackKingside = true) :=
  ⟨(c6_castling_rights castleBoard ⟨2, 4⟩ ⟨2, 6⟩ allRights none .queen).1,
    (c6_castling_rights castleBoard ⟨2, 4⟩ ⟨2, 6⟩ allRights none
      .queen).2.2.2.2.2.2.1⟩

/-! ### C2: the castling precondition -/

/-- C2: for a castle-shaped move (destination two columns away on the same
row) on a rectangular nine-column board, `canCastle` holds iff the king
stands on its home square, the relevant side's right is still granted, the
king is not currently in check, the matching rook occupies its home corner
(column 0 queenside, column 8 — the last column — kingside), every square
strictly between king and rook is empty, and neither square the king
transits through or lands on is attacked by the opponent. -/
theorem c2_can_castle (b : Board) (f t : Position) (color : PieceColor)
    (cr : CastlingRights) (hrect : Rect b) (hcols : colsOf b = 9)
    (hrow : t.row = f.row) (hdist : (t.col - f.col).natAbs = 2) :
    canCastle b f t color cr = true ↔ canCastleSpec b f t color cr := by
  unfold canCastle canCastleSpec
  by_cases hk : f.col < t.col <;> cases color <;> simp [hk]
  case pos.white =>
    constructor
    · rintro ⟨⟨h1, h2⟩, h3, h4, h5⟩
      rcases hrook : cellAt b ((rowsOf b : Int) - 1) 8 with _ | ⟨rt, rc⟩ <;>
        rw [hrook] at h5 <;> simp at h5
      obtain ⟨⟨hrt, hrc⟩, hpath, hatt⟩ := h5
      subst hrt; subst hrc
      refine ⟨h1, h2, h3, h4, rfl, ?_, ?_, ?_⟩
      · intro c hc9 hc4 hc8
        have hx := hpath (c - 5) (by omega)
        have hco : ((5 : Int) + ((c - 5 : Nat) : Int)) = (c : Int) := by push_cast; omega
        rwa [hco] at hx
      · have ha := hatt 0 (by norm_num)
        norm_num at ha
        exact ha
      · have ha := hatt 1 (by norm_num)
        norm_num at ha
        exact ha
    · rintro ⟨h1, h2, h3, h4, hrk, hpath, ha1, ha2⟩
      refine ⟨⟨h1, h2⟩, h3, h4, ?_⟩
      rw [hrk]
      simp
      refine ⟨?_, ?_⟩
      · intro x hx3
        have hx := hpath (5 + x) (by omega) (by push_cast; omega) (by push_cast; omega)
        have hco : (((5 + x : Nat) : Int)) = 5 + (x : Int) := by push_cast; ring
        rwa [hco] at hx
      · intro x hx2
        interval_cases x
        · norm_num
          exact ha1
        · norm_num
          exact ha2
  case pos.black =>
    constructor
    · rintro ⟨⟨h1, h2⟩, h3, h4, h5⟩
      rcases hrook : cellAt b 0 8 with _ | ⟨rt, rc⟩ <;>
        rw [hrook] at h5 <;> simp at h5
      obtain ⟨⟨hrt, hrc⟩, hpath, hatt⟩ := h5
      subst hrt; subst hrc
      refine ⟨h1, h2, h3, h4, rfl, ?_, ?_, ?_⟩
      · intro c hc9 hc4 hc8
        have hx := hpath (c - 5) (by omega)
        have hco : ((5 : Int) + ((c - 5 : Nat) : Int)) = (c : Int) := by push_cast; omega
        rwa [hco] at hx
      · have ha := hatt 0 (by norm_num)
        norm_num at ha
        exact ha
      · have ha := hatt 1 (by norm_num)
        norm_num at ha
        exact ha
    · rintro ⟨h1, h2, h3, h4, hrk, hpath, ha1, ha2⟩
      refine ⟨⟨h1, h2⟩, h3, h4, ?_⟩
      rw [hrk]
      simp
      refine ⟨?_, ?_⟩
      · intro x hx3
        have hx := hpath (5 + x) (by omega) (by push_cast; omega) (by push_cast; omega)
        have hco : (((5 + x : Nat) : Int)) = 5 + (x : Int) := by push_cast; ring
        rwa [hco] at hx
      · intro x hx2
        interval_cases x
        · norm_num
          exact ha1
        · norm_num
          exact ha2
  case neg.white =>
    constructor
    · rintro ⟨⟨h1, h2⟩, h3, h4, h5⟩
      rcases hrook : cellAt b ((rowsOf b : Int) - 1) 0 with _ | ⟨rt, rc⟩ <;>
        rw [hrook] at h5 <;> simp at h5
      obtain ⟨⟨hrt, hrc⟩, hpath, hatt⟩ := h5
      subst hrt; subst hrc
      refine ⟨h1, h2, h3, h4, rfl, ?_, ?_, ?_⟩
      · intro c hc9 hc0 hc4
        have hx := hpath (c - 1) (by omega)
        have hco : ((1 : Int) + ((c - 1 : Nat) : Int)) = (c : Int) := by push_cast; omega
        rwa [hco] at hx
      · have ha := hatt 0 (by norm_num)
        norm_num at ha
        exact ha
      · have ha := hatt 1 (by norm_num)
        norm_num at ha
        exact ha
    · rintro ⟨h1, h2, h3, h4, hrk, hpath, ha1, ha2⟩
      refine ⟨⟨h1, h2⟩, h3, h4, ?_⟩
      rw [hrk]
      simp
      refine ⟨?_, ?_⟩
      · intro x hx3
        have hx := hpath (1 + x) (by omega) (by push_cast; omega) (by push_cast; omega)
        have hco : (((1 + x : Nat) : Int)) = 1 + (x : Int) := by push_cast; ring
        rwa [hco] at hx
      · intro x hx2
        interval_cases x
        · norm_num
          exact ha1
        · norm_num
          exact ha2
  case neg.black =>
    constructor
    · rintro ⟨⟨h1, h2⟩, h3, h4, h5⟩
      rcases hrook : cellAt b 0 0 with _ | ⟨rt, rc⟩ <;>
        rw [hrook] at h5 <;> simp at h5
      obtain ⟨⟨hrt, hrc⟩, hpath, hatt⟩ := h5
      subst hrt; subst hrc
      refine ⟨h1, h2, h3, h4, rfl, ?_, ?_, ?_⟩
      · intro c hc9 hc0 hc4
        have hx := hpath (c - 1) (by omega)
        have hco : ((1 : Int) + ((c - 1 : Nat) : Int)) = (c : Int) := by push_cast; omega
        rwa [hco] at hx
      · have ha := hatt 0 (by norm_num)
        norm_num at ha
        exact ha
      · have ha := hatt 1 (by norm_num)
        norm_num at ha
        exact ha
    · rintro ⟨h1, h2, h3, h4, hrk, hpath, ha1, ha2⟩
      refine ⟨⟨h1, h2⟩, h3, h4, ?_⟩
      rw [hrk]
      simp
      refine ⟨?_, ?_⟩
      · intro x hx3
        have hx := hpath (1 + x) (by omega) (by push_cast; omega) (by push_cast; omega)
        have hco : (((1 + x : Nat) : Int)) = 1 + (x : Int) := by push_cast; ring
        rwa [hco] at hx
      · intro x hx2
        interval_cases x
        · norm_num
          exact ha1
        · norm_num
          exact ha2

theorem c2_can_castle_witness :
    canCastle castleBoard ⟨2, 4⟩ ⟨2, 6⟩ .white allRights = true ↔
      canCastleSpec castleBoard ⟨2, 4⟩ ⟨2, 6⟩ .white allRights :=
  c2_can_castle castleBoard ⟨2, 4⟩ ⟨2, 6⟩ .white allRights (by decide) (by decide)
    (by decide) (by decide)

/-! ### C10: board accesses stay in bounds for an in-bounds source -/

theorem cellAtOB_eq (b : Board) (r c : Int) (hrect : Rect b)
    (h0 : 0 ≤ r) (h1 : r < (rowsOf b : Int)) (h2 : 0 ≤ c) (h3 : c < (colsOf b : Int)) :
    cellAtOB b r c = some (cellAt b r c) := by
  have hrl : r.toNat < b.length := by unfold rowsOf at h1; omega
  have hmem : b.getD r.toNat [] ∈ b := by
    rw [List.getD_eq_getElem?_getD, List.getElem?_eq_getElem hrl]
    exact List.getElem_mem _
  have hlen : (b.getD r.toNat []).length = colsOf b := hrect _ hmem
  unfold cellAtOB cellAt
  rw [if_pos ⟨h0, h1, h2, by omega⟩, if_pos ⟨h0, h2⟩]

theorem step_between (a T j : Int) (h1j : 1 ≤ j)
    (hj : j < ((T - a).natAbs : Int) ∨ T = a) :
    min a T ≤ a + (T - a).sign * j ∧ a + (T - a).sign * j ≤ max a T := by
  rcases lt_trichotomy (T - a) 0 with h | h | h
  · rw [Int.sign_eq_neg_one_iff_neg.mpr h]
    rcases hj with hj | hj <;> constructor <;> simp [min_def, max_def] <;> omega
  · have hT : T = a := by omega
    rw [h, Int.sign_zero]
    subst hT
    simp
  · rw [Int.sign_eq_one_iff_pos.mpr h]
    rcases hj with hj | hj <;> constructor <;> simp [min_def, max_def] <;> omega

theorem optAll_eq_all (f : Nat → Option Bool) (g : Nat → Bool) (l : List Nat)
    (h : ∀ i ∈ l, f i = some (g i)) : optAll f l = some (l.all g) := by
  induction l with
  | nil => rfl
  | cons i rest ih =>
    unfold optAll
    rw [h i (List.mem_cons_self ..)]
    by_cases hg : g i = true
    · simp only [hg, if_true]
      rw [ih (fun j hj => h j (List.mem_cons_of_mem _ hj))]
      simp [hg]
    · simp only [Bool.not_eq_true] at hg
      simp [hg]

theorem isPathClearOB_eq (b : Board) (f t : Position) (hrect : Rect b)
    (hf : inBoundsB b f) (ht : inBoundsB b t)
    (halign : (t.row - f.row).natAbs = (t.col - f.col).natAbs ∨ t.row = f.row ∨
      t.col = f.col) :
    isPathClearOB b f t = some (isPathClear b f t) := by
  obtain ⟨hf1, hf2, hf3, hf4⟩ := hf
  obtain ⟨ht1, ht2, ht3, ht4⟩ := ht
  simp only [isPathClearOB, isPathClear]
  apply optAll_eq_all
  intro i hi
  rw [List.mem_range] at hi
  have hrOk : ((i : Int) + 1) < ((t.row - f.row).natAbs : Int) ∨ t.row = f.row := by
    rcases halign with h | h | h
    · left; omega
    · right; exact h
    · left; omega
  have hcOk : ((i : Int) + 1) < ((t.col - f.col).natAbs : Int) ∨ t.col = f.col := by
    rcases halign with h | h | h
    · left; omega
    · left; omega
    · right; exact h
  obtain ⟨hr1, hr2⟩ := step_between f.row t.row ((i : Int) + 1) (by omega) hrOk
  obtain ⟨hc1, hc2⟩ := step_between f.col t.col ((i : Int) + 1) (by omega) hcOk
  rw [cellAtOB_eq b _ _ hrect (by omega) (by omega) (by omega) (by omega)]
  rfl





theorem mk_type (t : PieceType) (c : PieceColor) :
    (ChessPiece.mk t c).type = t := rfl

theorem mk_color (t : PieceType) (c : PieceColor) :
    (ChessPiece.mk t c).color = c := rfl


theorem isValidMoveBasicOB_eq (b : Board) (f t : Position) (ep : Option Position)
    (cr : Option CastlingRights) (hrect : Rect b) (hrows : 0 < rowsOf b)
    (hf : inBoundsB b f) :
    isValidMoveBasicOB b f t ep cr = some (isValidMoveBasic b f t ep cr) := by
  obtain ⟨hf1, hf2, hf3, hf4⟩ := hf
  simp only [isValidMoveBasicOB, isValidMoveBasic]
  rw [if_neg (by omega : ¬ rowsOf b = 0)]
  by_cases hb : t.row < 0 ∨ (rowsOf b : Int) ≤ t.row ∨ t.col < 0 ∨ (colsOf b : Int) ≤ t.col
  · rw [if_pos hb, if_pos hb]
  · rw [if_neg hb, if_neg hb]
    push_neg at hb
    obtain ⟨ht1, ht2, ht3, ht4⟩ := hb
    rw [cellAtOB_eq b f.row f.col hrect hf1 hf2 hf3 hf4]
    cases hp : cellAt b f.row f.col with
    | none => rfl
    | some piece =>
      simp only [Option.some_bind]
      rw [cellAtOB_eq b t.row t.col hrect (by omega) (by omega) (by omega) (by omega)]
      simp only [Option.some_bind]
      by_cases hsame : (cellAt b t.row t.col).any (fun tp => tp.color = piece.color) = true
      · simp only [hsame, if_true]
      · simp only [Bool.not_eq_true] at hsame
        simp only [hsame, Bool.false_eq_true, if_false]
        by_cases hft : f.row = t.row ∧ f.col = t.col
        · rw [if_pos hft, if_pos hft]
        · rw [if_neg hft, if_neg hft]
          obtain ⟨pt, pc⟩ := piece
          cases pt
          -- king
          · by_cases hA : (t.row - f.row).natAbs ≤ 1 ∧ (t.col - f.col).natAbs ≤ 1
            · rw [if_pos hA, if_pos hA]
            · rw [if_neg hA, if_neg hA]
              cases cr <;> rfl
          -- queen
          · by_cases hq : (t.row - f.row).natAbs ≠ (t.col - f.col).natAbs ∧
                t.row - f.row ≠ 0 ∧ t.col - f.col ≠ 0
            · rw [if_pos hq, if_pos hq]
            · rw [if_neg hq, if_neg hq]
              push_neg at hq
              apply isPathClearOB_eq b f t hrect ⟨hf1, hf2, hf3, hf4⟩
                ⟨ht1, ht2, ht3, ht4⟩
              by_cases h1 : (t.row - f.row).natAbs = (t.col - f.col).natAbs
              · exact Or.inl h1
              · have h2 := hq h1
                by_cases h3 : t.row - f.row = 0
                · exact Or.inr (Or.inl (by omega))
                · have h4 := h2 h3
                  exact Or.inr (Or.inr (by omega))
          -- rook
          · by_cases hq : t.row - f.row ≠ 0 ∧ t.col - f.col ≠ 0
            · rw [if_pos hq, if_pos hq]
            · rw [if_neg hq, if_neg hq]
              push_neg at hq
              apply isPathClearOB_eq b f t hrect ⟨hf1, hf2, hf3, hf4⟩
                ⟨ht1, ht2, ht3, ht4⟩
              by_cases h1 : t.row - f.row = 0
              · exact Or.inr (Or.inl (by omega))
              · have h4 := hq h1
                exact Or.inr (Or.inr (by omega))
          -- bishop
          · by_cases hq : (t.row - f.row).natAbs ≠ (t.col - f.col).natAbs
            · rw [if_pos hq, if_pos hq]
            · rw [if_neg hq, if_neg hq]
              push_neg at hq
              exact isPathClearOB_eq b f t hrect ⟨hf1, hf2, hf3, hf4⟩
                ⟨ht1, ht2, ht3, ht4⟩ (Or.inl hq)
          -- knight
          · rfl
          -- pawn
          · cases pc
            · simp only [mk_type, mk_color, reduceIte]
              by_cases hfwd : t.col - f.col = 0 ∧ cellAt b t.row t.col = none
              · rw [if_pos hfwd]
                by_cases h1 : t.row - f.row = (-1 : Int)
                · rw [if_pos h1]
                  simp [hfwd, h1]
                · rw [if_neg h1]
                  by_cases h2 : f.row = (rowsOf b : Int) - 2 ∧
                      t.row - f.row = 2 * (-1 : Int)
                  · rw [if_pos h2]
                    rw [cellAtOB_eq b (f.row + (-1)) f.col hrect (by omega) (by omega)
                      (by omega) (by omega)]
                    simp only [Option.some_bind]
                    by_cases hm : cellAt b (f.row + (-1)) f.col = none
                    · rw [if_pos hm]
                      simp [hfwd, h1, h2, hm]
                      refine Or.inr ⟨by omega, ?_⟩
                      rw [← h2.1]
                      exact hm
                    · rw [if_neg hm]
                      simp [hfwd, h1, h2, hm, Option.isNone_iff_eq_none]
                      constructor
                      · omega
                      · intro h3
                        rw [← h2.1]
                        exact Option.ne_none_iff_isSome.mp hm
                  · rw [if_neg h2]
                    simp [hfwd, h1, h2]
                    intro ha hb
                    exact absurd ⟨ha, by omega⟩ h2
              · rw [if_neg hfwd]
                have hd : ¬ (t.col - f.col = 0) ∨ ¬ (cellAt b t.row t.col = none) := by
                  tauto
                rcases hd with h | h <;> simp [h]
            · simp only [mk_type, mk_color, reduceIte,
                show (if PieceColor.black = PieceColor.white then (-1 : Int) else 1) = 1
                  from rfl,
                show (if PieceColor.black = PieceColor.white then ((rowsOf b : Int) - 2)
                    else 1) = 1 from rfl]
              by_cases hfwd : t.col - f.col = 0 ∧ cellAt b t.row t.col = none
              · rw [if_pos hfwd]
                by_cases h1 : t.row - f.row = (1 : Int)
                · rw [if_pos h1]
                  simp [hfwd, h1]
                · rw [if_neg h1]
                  by_cases h2 : f.row = (1 : Int) ∧ t.row - f.row = 2 * (1 : Int)
                  · rw [if_pos h2]
                    rw [cellAtOB_eq b (f.row + 1) f.col hrect (by omega) (by omega)
                      (by omega) (by omega)]
                    simp only [Option.some_bind]
                    by_cases hm : cellAt b (f.row + 1) f.col = none
                    · rw [if_pos hm]
                      simp [hfwd, h1, h2, hm]
                      refine Or.inr ⟨by omega, ?_⟩
                      have hc : (2 : Int) = f.row + 1 := by omega
                      rw [hc]
                      exact hm
                    · rw [if_neg hm]
                      simp [hfwd, h1, h2, hm, Option.isNone_iff_eq_none]
                      constructor
                      · omega
                      · intro h3
                        have hc : (2 : Int) = f.row + 1 := by omega
                        rw [hc]
                        exact Option.ne_none_iff_isSome.mp hm
                  · rw [if_neg h2]
                    simp [hfwd, h1, h2]
                    intro ha hb
                    exact absurd ⟨ha, by omega⟩ h2
              · rw [if_neg hfwd]
                have hd : ¬ (t.col - f.col = 0) ∨ ¬ (cellAt b t.row t.col = none) := by
                  tauto
                rcases hd with h | h <;> simp [h]

theorem isValidMoveOB_eq (b : Board) (f t : Position) (ep : Option Position)
    (cr : Option CastlingRights) (hrect : Rect b) (hrows : 0 < rowsOf b)
    (hf : inBoundsB b f) :
    isValidMoveOB b f t ep cr = some (isValidMove b f t ep cr) := by
  obtain ⟨hf1, hf2, hf3, hf4⟩ := hf
  simp only [isValidMoveOB, isValidMove]
  rw [cellAtOB_eq b f.row f.col hrect hf1 hf2 hf3 hf4]
  cases hp : cellAt b f.row f.col with
  | none => rfl
  | some piece =>
    simp only [Option.some_bind]
    rw [isValidMoveBasicOB_eq b f t ep cr hrect hrows ⟨hf1, hf2, hf3, hf4⟩]
    simp only [Option.some_bind]
    by_cases hb : isValidMoveBasic b f t ep cr = true
    · by_cases hw : wouldMoveLeaveKingInCheck b f t piece.color ep = true <;>
        simp [hb, hw]
    · simp [hb]

/-- C10: on a rectangular non-empty board, with the source square in
bounds and an arbitrary destination, every board-array access performed by
`isValidMove`, `isValidMoveBasic` and `isPathClear` (path clearance on an
aligned in-bounds pair) is in bounds: the strict access-checked variants
succeed and agree with the originals.  The source square itself is never
bounds-checked: with an out-of-bounds source the strict run of
`isValidMove` fails on its very first read. -/
theorem c10_bounds_safety (b : Board) (f t : Position) (ep : Option Position)
    (cr : Option CastlingRights) (hrect : Rect b) (hrows : 0 < rowsOf b)
    (hf : inBoundsB b f) :
    isValidMoveOB b f t ep cr = some (isValidMove b f t ep cr) ∧
      isValidMoveBasicOB b f t ep cr = some (isValidMoveBasic b f t ep cr) ∧
      (inBoundsB b t →
        ((t.row - f.row).natAbs = (t.col - f.col).natAbs ∨ t.row = f.row ∨
          t.col = f.col) →
        isPathClearOB b f t = some (isPathClear b f t)) ∧
      isValidMoveOB [[none]] ⟨-1, 0⟩ ⟨0, 0⟩ none none = none := by
  refine ⟨isValidMoveOB_eq b f t ep cr hrect hrows hf,
    isValidMoveBasicOB_eq b f t ep cr hrect hrows hf,
    fun ht halign => isPathClearOB_eq b f t hrect hf ht halign, rfl⟩

theorem c10_bounds_safety_witness :
    isValidMoveOB castleBoard ⟨2, 4⟩ ⟨2, 6⟩ none (some allRights) =
        some (isValidMove castleBoard ⟨2, 4⟩ ⟨2, 6⟩ none (some allRights)) ∧
      isValidMoveBasicOB castleBoard ⟨2, 4⟩ ⟨2, 6⟩ none (some allRights) =
        some (isValidMoveBasic castleBoard ⟨2, 4⟩ ⟨2, 6⟩ none (some allRights)) ∧
      (inBoundsB castleBoard ⟨2, 6⟩ →
        (((2 : Int) - 2).natAbs = ((6 : Int) - 4).natAbs ∨ (2 : Int) = 2 ∨
          (6 : Int) = 4) →
        isPathClearOB castleBoard ⟨2, 4⟩ ⟨2, 6⟩ =
          some (isPathClear castleBoard ⟨2, 4⟩ ⟨2, 6⟩)) ∧
      isValidMoveOB [[none]] ⟨-1, 0⟩ ⟨0, 0⟩ none none = none :=
  c10_bounds_safety castleBoard ⟨2, 4⟩ ⟨2, 6⟩ none (some allRights) (by decide)
    (by decide) (by decide)


/-! ### C1: legality = basic validity + king safety of the simulated move -/

/-! ### C1: legality equals basic validity plus king safety -/

theorem list_findSome?_congr {α β : Type} (f g : α → Option β) (l : List α)
    (h : ∀ a ∈ l, f a = g a) : l.findSome? f = l.findSome? g := by
  induction l with
  | nil => rfl
  | cons a rest ih =>
    rw [List.findSome?_cons, List.findSome?_cons, h a (List.mem_cons_self ..)]
    cases g a with
    | none => exact ih fun x hx => h x (List.mem_cons_of_mem _ hx)
    | some v => rfl

theorem list_any_congr {α : Type} (f g : α → Bool) (l : List α)
    (h : ∀ a ∈ l, f a = g a) : l.any f = l.any g := by
  induction l with
  | nil => rfl
  | cons a rest ih =>
    rw [List.any_cons, List.any_cons, h a (List.mem_cons_self ..),
      ih fun x hx => h x (List.mem_cons_of_mem _ hx)]

theorem list_all_congr {α : Type} (f g : α → Bool) (l : List α)
    (h : ∀ a ∈ l, f a = g a) : l.all f = l.all g := by
  induction l with
  | nil => rfl
  | cons a rest ih =>
    rw [List.all_cons, List.all_cons, h a (List.mem_cons_self ..),
      ih fun x hx => h x (List.mem_cons_of_mem _ hx)]

theorem isPathClear_congr (b₁ b₂ : Board) (f t : Position)
    (hocc : ∀ r c : Int, (cellAt b₁ r c).isNone = (cellAt b₂ r c).isNone) :
    isPathClear b₁ f t = isPathClear b₂ f t := by
  unfold isPathClear
  exact list_all_congr _ _ _ fun i _ => hocc _ _

theorem attack_move_congr (b₁ b₂ : Board) (f t : Position)
    (hr : rowsOf b₁ = rowsOf b₂) (hc : colsOf b₁ = colsOf b₂)
    (hocc : ∀ r c : Int, (cellAt b₁ r c).isNone = (cellAt b₂ r c).isNone)
    (hfrom : cellAt b₁ f.row f.col = cellAt b₂ f.row f.col)
    (hto : cellAt b₁ t.row t.col = cellAt b₂ t.row t.col) :
    isValidMoveBasicForAttack b₁ f t = isValidMoveBasicForAttack b₂ f t := by
  unfold isValidMoveBasicForAttack
  rw [hr, hc, hfrom, hto, isPathClear_congr b₁ b₂ f t hocc]

theorem under_attack_congr (b₁ b₂ : Board) (pos : Position) (attacker : PieceColor)
    (hr : rowsOf b₁ = rowsOf b₂) (hc : colsOf b₁ = colsOf b₂)
    (hsq : ∀ r c : Int, cellAt b₁ r c = cellAt b₂ r c ∨
      (∃ p₁ p₂, cellAt b₁ r c = some p₁ ∧ cellAt b₂ r c = some p₂ ∧
        p₁.color ≠ attacker ∧ p₂.color ≠ attacker))
    (hto : cellAt b₁ pos.row pos.col = cellAt b₂ pos.row pos.col) :
    isSquareUnderAttack b₁ pos attacker = isSquareUnderAttack b₂ pos attacker := by
  have hocc : ∀ r c : Int, (cellAt b₁ r c).isNone = (cellAt b₂ r c).isNone := by
    intro r c
    rcases hsq r c with h | ⟨p₁, p₂, h1, h2, _, _⟩
    · rw [h]
    · rw [h1, h2]
      rfl
  unfold isSquareUnderAttack
  rw [hr, hc]
  apply list_any_congr
  intro r _
  apply list_any_congr
  intro c _
  rcases hsq (r : Int) (c : Int) with h | ⟨p₁, p₂, h1, h2, hc₁, hc₂⟩
  · rw [h]
    cases hcase : cellAt b₂ (r : Int) (c : Int) with
    | none => rfl
    | some q =>
      rw [attack_move_congr b₁ b₂ ⟨r, c⟩ pos hr hc hocc (by rw [h, hcase]) hto]
  · rw [h1, h2]
    simp [hc₁, hc₂]

theorem findKing_congr (b₁ b₂ : Board) (color : PieceColor)
    (hr : rowsOf b₁ = rowsOf b₂) (hc : colsOf b₁ = colsOf b₂)
    (hsq : ∀ r c : Int, cellAt b₁ r c = cellAt b₂ r c ∨
      (∃ p₁ p₂, cellAt b₁ r c = some p₁ ∧ cellAt b₂ r c = some p₂ ∧
        p₁.type ≠ PieceType.king ∧ p₂.type ≠ PieceType.king)) :
    findKingPosition b₁ color = findKingPosition b₂ color := by
  unfold findKingPosition
  rw [hr, hc]
  apply list_findSome?_congr
  intro r _
  apply list_findSome?_congr
  intro c _
  rcases hsq (r : Int) (c : Int) with h | ⟨p₁, p₂, h1, h2, ht₁, ht₂⟩
  · rw [h]
  · rw [h1, h2]
    simp [ht₁, ht₂]

theorem findKing_some (b : Board) (color : PieceColor) (kp : Position)
    (h : findKingPosition b color = some kp) :
    ∃ pp, cellAt b kp.row kp.col = some pp ∧ pp.type = PieceType.king ∧
      pp.color = color := by
  unfold findKingPosition at h
  obtain ⟨r, _, hr⟩ := List.exists_of_findSome?_eq_some h
  obtain ⟨c, _, hcv⟩ := List.exists_of_findSome?_eq_some hr
  rcases hcell : cellAt b (r : Int) (c : Int) with _ | pp
  · rw [hcell] at hcv
    simp at hcv
  · rw [hcell] at hcv
    have hcv' : (if pp.type = PieceType.king ∧ pp.color = color then
        some (⟨r, c⟩ : Position) else none) = some kp := hcv
    by_cases hcond : pp.type = PieceType.king ∧ pp.color = color
    · rw [if_pos hcond] at hcv'
      have h1 := Option.some.inj hcv'
      subst h1
      exact ⟨pp, hcell, hcond.1, hcond.2⟩
    · rw [if_neg hcond] at hcv'
      exact absurd hcv' (by simp)

theorem other_ne (c : PieceColor) : c ≠ c.other := by
  cases c <;> decide

theorem isKingInCheck_congr (b₁ b₂ : Board) (c₀ : PieceColor)
    (hr : rowsOf b₁ = rowsOf b₂) (hc : colsOf b₁ = colsOf b₂)
    (hsq : ∀ r c : Int, cellAt b₁ r c = cellAt b₂ r c ∨
      (∃ p₁ p₂, cellAt b₁ r c = some p₁ ∧ cellAt b₂ r c = some p₂ ∧
        p₁.color = c₀ ∧ p₂.color = c₀ ∧ p₁.type ≠ PieceType.king ∧
        p₂.type ≠ PieceType.king)) :
    isKingInCheck b₁ c₀ = isKingInCheck b₂ c₀ := by
  unfold isKingInCheck
  rw [findKing_congr b₁ b₂ c₀ hr hc (fun r c => by
    rcases hsq r c with h | ⟨p₁, p₂, h1, h2, _, _, ht₁, ht₂⟩
    · exact Or.inl h
    · exact Or.inr ⟨p₁, p₂, h1, h2, ht₁, ht₂⟩)]
  cases hk : findKingPosition b₂ c₀ with
  | none => rfl
  | some kp =>
    obtain ⟨pp, hpp, hppk, _⟩ := findKing_some b₂ c₀ kp hk
    have hto : cellAt b₁ kp.row kp.col = cellAt b₂ kp.row kp.col := by
      rcases hsq kp.row kp.col with h | ⟨p₁, p₂, h1, h2, _, _, _, ht₂⟩
      · exact h
      · rw [hpp] at h2
        have h2' := Option.some.inj h2
        exact absurd (h2' ▸ hppk) ht₂
    apply under_attack_congr b₁ b₂ kp c₀.other hr hc
    · intro r c
      rcases hsq r c with h | ⟨p₁, p₂, h1, h2, hc₁, hc₂, _, _⟩
      · exact Or.inl h
      · exact Or.inr ⟨p₁, p₂, h1, h2, by rw [hc₁]; exact other_ne c₀,
          by rw [hc₂]; exact other_ne c₀⟩
    · exact hto

/-- The write-target is a real cell of the board (row exists, index within
that row). -/
def Wr (b : Board) (r c : Int) : Prop :=
  0 ≤ r ∧ r < (rowsOf b : Int) ∧ 0 ≤ c ∧ c < ((b.getD r.toNat []).length : Int)

theorem cellAt_some_bounds (b : Board) (r c : Int) (p : ChessPiece)
    (h : cellAt b r c = some p) : Wr b r c := by
  unfold cellAt at h
  by_cases hg : 0 ≤ r ∧ 0 ≤ c
  · rw [if_pos hg] at h
    by_cases hr : r.toNat < b.length
    · by_cases hc : c.toNat < (b.getD r.toNat []).length
      · exact ⟨hg.1, by unfold rowsOf; omega, hg.2, by omega⟩
      · rw [List.getD_eq_getElem?_getD, List.getElem?_eq_none (by omega)] at h
        simp at h
    · rw [List.getD_eq_getElem?_getD (b) (r.toNat) ([]),
        List.getElem?_eq_none (by omega)] at h
      simp at h
  · rw [if_neg hg] at h
    simp at h

theorem wr_of_inBounds (b : Board) (x : Position) (hrect : Rect b)
    (h : inBoundsB b x) : Wr b x.row x.col := by
  obtain ⟨h1, h2, h3, h4⟩ := h
  have hrl : x.row.toNat < b.length := by unfold rowsOf at h2; omega
  have hmem : b.getD x.row.toNat [] ∈ b := by
    rw [List.getD_eq_getElem?_getD, List.getElem?_eq_getElem hrl]
    exact List.getElem_mem _
  have hlen := hrect _ hmem
  exact ⟨h1, h2, h3, by omega⟩

theorem rowLen_setCell (b : Board) (r c : Int) (v : Option ChessPiece) (i : Nat) :
    ((setCell b r c v).getD i []).length = (b.getD i []).length := by
  unfold setCell
  split
  · rw [List.getD_eq_getElem?_getD, List.getD_eq_getElem?_getD, List.getElem?_set]
    by_cases hi : r.toNat = i
    · subst hi
      by_cases hlt : r.toNat < b.length
      · simp only [if_pos rfl, if_pos hlt, if_true, Option.getD_some, List.length_set]
        rw [List.getD_eq_getElem?_getD]
      · simp only [if_pos rfl, if_neg hlt, if_true, Option.getD_none]
        rw [List.getD_eq_getElem?_getD, List.getElem?_eq_none (by omega)]
        rfl
    · simp only [if_neg hi]
      rw [List.getD_eq_getElem?_getD]
  · rfl

theorem wr_setCell (b : Board) (r c r' c' : Int) (v : Option ChessPiece)
    (h : Wr b r' c') : Wr (setCell b r c v) r' c' := by
  obtain ⟨h1, h2, h3, h4⟩ := h
  refine ⟨h1, ?_, h3, ?_⟩
  · rw [rowsOf_setCell]; exact h2
  · rw [rowLen_setCell]; exact h4

theorem cellAt_setCell_wr (b : Board) (r c : Int) (v : Option ChessPiece)
    (h : Wr b r c) : cellAt (setCell b r c v) r c = v :=
  cellAt_setCell_self b r c v h.1 h.2.1 h.2.2.1 h.2.2.2

theorem basic_bounds (b : Board) (f t : Position) (ep : Option Position)
    (cr : Option CastlingRights) (h : isValidMoveBasic b f t ep cr = true) :
    0 ≤ t.row ∧ t.row < (rowsOf b : Int) ∧ 0 ≤ t.col ∧ t.col < (colsOf b : Int) := by
  unfold isValidMoveBasic at h
  by_cases hb : t.row < 0 ∨ (rowsOf b : Int) ≤ t.row ∨ t.col < 0 ∨
      (colsOf b : Int) ≤ t.col
  · rw [if_pos hb] at h
    exact absurd h (by simp)
  · push_neg at hb
    exact ⟨by omega, by omega, by omega, by omega⟩

theorem basic_ne (b : Board) (f t : Position) (ep : Option Position)
    (cr : Option CastlingRights) (p : ChessPiece) (hp : cellAt b f.row f.col = some p)
    (h : isValidMoveBasic b f t ep cr = true) : ¬(f.row = t.row ∧ f.col = t.col) := by
  intro hft
  obtain ⟨hr, hc⟩ := hft
  simp [isValidMoveBasic, hp, hr, hc] at h
  obtain ⟨h1, h2⟩ := h
  revert h2
  cases cellAt b t.row t.col <;> simp

theorem basic_castle (b : Board) (f t : Position) (ep : Option Position)
    (cr : CastlingRights) (p : ChessPiece) (hp : cellAt b f.row f.col = some p)
    (h : isValidMoveBasic b f t ep (some cr) = true)
    (hk : p.type = PieceType.king) (h2 : (t.col - f.col).natAbs = 2) :
    t.row = f.row ∧ canCastle b f t p.color cr = true := by
  simp only [isValidMoveBasic, hp, hk, h2] at h
  split_ifs at h with hb hsame hft hle
  · omega
  · simp only [Bool.and_eq_true, decide_eq_true_eq, Int.natAbs_eq_zero, and_true] at h
    exact ⟨by omega, h.2⟩

theorem basic_pawn_step (b : Board) (f t : Position) (ep : Option Position)
    (cr : Option CastlingRights) (p : ChessPiece) (hp : cellAt b f.row f.col = some p)
    (h : isValidMoveBasic b f t ep cr = true) (hpt : p.type = PieceType.pawn) :
    t.row - f.row = (if p.color = PieceColor.white then (-1 : Int) else 1) ∨
      t.row - f.row = 2 * (if p.color = PieceColor.white then (-1 : Int) else 1) := by
  by_cases hcw : p.color = PieceColor.white
  · simp only [isValidMoveBasic, hp, hpt, hcw, eq_self_iff_true, if_true] at h ⊢
    split_ifs at h with hb hsame hft
    simp only [Bool.or_eq_true, Bool.and_eq_true, decide_eq_true_eq] at h
    rcases h with ⟨⟨hcol, hnone⟩, h | ⟨hsr, hmid⟩⟩ | ⟨hcap1, hcap2⟩
    · exact Or.inl h
    · exact Or.inr hsr.2
    · exact Or.inl hcap1.2
  · simp only [isValidMoveBasic, hp, hpt, hcw, if_false] at h ⊢
    split_ifs at h with hb hsame hft
    simp only [Bool.or_eq_true, Bool.and_eq_true, decide_eq_true_eq] at h
    rcases h with ⟨⟨hcol, hnone⟩, h | ⟨hsr, hmid⟩⟩ | ⟨hcap1, hcap2⟩
    · exact Or.inl h
    · exact Or.inr hsr.2
    · exact Or.inl hcap1.2

theorem canCastle_facts (b : Board) (f t : Position) (color : PieceColor)
    (cr : CastlingRights) (h : canCastle b f t color cr = true) :
    f.col = 4 ∧ ∃ rook : ChessPiece,
      cellAt b f.row (if f.col < t.col then (8 : Int) else 0) = some rook := by
  by_cases h1 : f.row = (if color = PieceColor.white then ((rowsOf b : Int)) - 1 else 0) ∧
      f.col = 4
  · obtain ⟨hfr, hfc⟩ := h1
    simp [canCastle, hfr, hfc] at h
    obtain ⟨-, -, h3⟩ := h
    rcases hcell : cellAt b
        (if color = PieceColor.white then ((rowsOf b : Int)) - 1 else 0)
        (if (4 : Int) < t.col then (8 : Int) else 0) with _ | rook
    · exfalso
      simp [hcell] at h3
    · refine ⟨hfc, rook, ?_⟩
      rw [hfr, hfc]
      exact hcell
  · exfalso
    have h1' : f.row ≠ (if color = PieceColor.white then ((rowsOf b : Int)) - 1 else 0) ∨
        f.col ≠ 4 := by tauto
    simp only [canCastle] at h
    rw [if_pos h1'] at h
    simp at h

theorem cellAt_none_of_not_wr (b : Board) (r c : Int) (h : ¬Wr b r c) :
    cellAt b r c = none := by
  unfold Wr at h
  unfold cellAt
  by_cases hg : 0 ≤ r ∧ 0 ≤ c
  · rw [if_pos hg]
    push_neg at h
    by_cases hr : r.toNat < b.length
    · have hc2 : ((b.getD r.toNat []).length : Int) ≤ c :=
        h hg.1 (by unfold rowsOf; omega) hg.2
      rw [List.getD_eq_getElem?_getD, List.getElem?_eq_none (by omega)]
      rfl
    · have hrow : List.getD b r.toNat [] = [] := by
        rw [List.getD_eq_getElem?_getD, List.getElem?_eq_none (by omega)]
        rfl
      rw [hrow]
      rfl
  · rw [if_neg hg]

theorem not_wr_setCell (b : Board) (r c : Int) (v : Option ChessPiece)
    (h : ¬Wr b r c) : ¬Wr (setCell b r c v) r c := by
  intro hw
  apply h
  obtain ⟨h1, h2, h3, h4⟩ := hw
  rw [rowsOf_setCell] at h2
  rw [rowLen_setCell] at h4
  exact ⟨h1, h2, h3, h4⟩

theorem cellAt_setCell_none (b : Board) (r c : Int) :
    cellAt (setCell b r c none) r c = none := by
  by_cases hw : Wr b r c
  · exact cellAt_setCell_wr b r c none hw
  · exact cellAt_none_of_not_wr _ _ _ (not_wr_setCell b r c none hw)

theorem rowsOf_simulateMove (b : Board) (f t : Position) (ep : Option Position) :
    rowsOf (simulateMove b f t ep) = rowsOf b := by
  rcases hc : cellAt b f.row f.col with _ | p <;> rcases ep with _ | e <;>
      simp only [simulateMove, hc] <;>
    first
    | (split_ifs <;> simp [rowsOf_setCell])
    | simp [rowsOf_setCell]

theorem colsOf_simulateMove (b : Board) (f t : Position) (ep : Option Position) :
    colsOf (simulateMove b f t ep) = colsOf b := by
  rcases hc : cellAt b f.row f.col with _ | p <;> rcases ep with _ | e <;>
      simp only [simulateMove, hc] <;>
    first
    | (split_ifs <;> simp [colsOf_setCell])
    | simp [colsOf_setCell]

theorem rowsOf_executeMove (b : Board) (f t : Position) (cr : CastlingRights)
    (ep : Option Position) (pp : PromotionPiece) :
    rowsOf (executeMove b f t cr ep pp).newBoard = rowsOf b := by
  rcases hc : cellAt b f.row f.col with _ | p
  · simp [executeMove, hc]
  · simp only [executeMove, hc]
    split_ifs <;> simp [rowsOf_setCell]

theorem colsOf_executeMove (b : Board) (f t : Position) (cr : CastlingRights)
    (ep : Option Position) (pp : PromotionPiece) :
    colsOf (executeMove b f t cr ep pp).newBoard = colsOf b := by
  rcases hc : cellAt b f.row f.col with _ | p
  · simp [executeMove, hc]
  · simp only [executeMove, hc]
    split_ifs <;> simp [colsOf_setCell]

theorem promotionType_ne_king (pp : PromotionPiece) :
    promotionType pp ≠ PieceType.king := by
  cases pp <;> simp [promotionType]

theorem castle_cells (b : Board) (p : ChessPiece) (v : Option ChessPiece)
    (fr fc tc rfc rtc : Int)
    (h1 : fc ≠ tc) (h2 : fc ≠ rfc) (h3 : fc ≠ rtc) (h4 : tc ≠ rfc) (h5 : tc ≠ rtc)
    (h6 : rfc ≠ rtc)
    (hwt : Wr b fr tc) (hwrt : Wr b fr rtc) :
    ∀ r c : Int,
      cellAt (setCell (setCell (setCell (setCell b fr rtc v) fr rfc none) fr tc
          (some p)) fr fc none) r c =
        cellAt (setCell (setCell (setCell (setCell b fr tc (some p)) fr fc none) fr
          rtc v) fr rfc none) r c := by
  intro r c
  by_cases hxf : r = fr ∧ c = fc
  · obtain ⟨hr, hc⟩ := hxf
    subst hr; subst hc
    rw [cellAt_setCell_none,
      cellAt_setCell_other _ _ _ _ _ _ (Or.inr h2),
      cellAt_setCell_other _ _ _ _ _ _ (Or.inr h3),
      cellAt_setCell_none]
  by_cases hxt : r = fr ∧ c = tc
  · obtain ⟨hr, hc⟩ := hxt
    subst hr; subst hc
    rw [cellAt_setCell_other _ _ _ _ _ _ (Or.inr (Ne.symm h1)),
      cellAt_setCell_wr _ _ _ _ (wr_setCell _ _ _ _ _ _ (wr_setCell _ _ _ _ _ _ hwt)),
      cellAt_setCell_other _ _ _ _ _ _ (Or.inr h4),
      cellAt_setCell_other _ _ _ _ _ _ (Or.inr h5),
      cellAt_setCell_other _ _ _ _ _ _ (Or.inr (Ne.symm h1)),
      cellAt_setCell_wr _ _ _ _ hwt]
  by_cases hxrf : r = fr ∧ c = rfc
  · obtain ⟨hr, hc⟩ := hxrf
    subst hr; subst hc
    rw [cellAt_setCell_other _ _ _ _ _ _ (Or.inr (Ne.symm h2)),
      cellAt_setCell_other _ _ _ _ _ _ (Or.inr (Ne.symm h4)),
      cellAt_setCell_none,
      cellAt_setCell_none]
  by_cases hxrt : r = fr ∧ c = rtc
  · obtain ⟨hr, hc⟩ := hxrt
    subst hr; subst hc
    rw [cellAt_setCell_other _ _ _ _ _ _ (Or.inr (Ne.symm h3)),
      cellAt_setCell_other _ _ _ _ _ _ (Or.inr (Ne.symm h5)),
      cellAt_setCell_other _ _ _ _ _ _ (Or.inr (Ne.symm h6)),
      cellAt_setCell_wr _ _ _ _ hwrt,
      cellAt_setCell_other _ _ _ _ _ _ (Or.inr (Ne.symm h6)),
      cellAt_setCell_wr _ _ _ _
        (wr_setCell _ _ _ _ _ _ (wr_setCell _ _ _ _ _ _ hwrt))]
  · have g1 : r ≠ fr ∨ c ≠ fc := by omega
    have g2 : r ≠ fr ∨ c ≠ tc := by omega
    have g3 : r ≠ fr ∨ c ≠ rfc := by omega
    have g4 : r ≠ fr ∨ c ≠ rtc := by omega
    rw [cellAt_setCell_other _ _ _ _ _ _ g1,
      cellAt_setCell_other _ _ _ _ _ _ g2,
      cellAt_setCell_other _ _ _ _ _ _ g3,
      cellAt_setCell_other _ _ _ _ _ _ g4,
      cellAt_setCell_other _ _ _ _ _ _ g3,
      cellAt_setCell_other _ _ _ _ _ _ g4,
      cellAt_setCell_other _ _ _ _ _ _ g1,
      cellAt_setCell_other _ _ _ _ _ _ g2]

theorem ep_cells (b : Board) (p : ChessPiece) (fr fc tr tc cpr : Int)
    (hne : ¬(fr = tr ∧ fc = tc)) (hcap : cpr ≠ tr) (hwt : Wr b tr tc) :
    ∀ r c : Int,
      cellAt (setCell (setCell (setCell b cpr tc none) tr tc (some p)) fr fc
          none) r c =
        cellAt (setCell (setCell (setCell b tr tc (some p)) fr fc none) cpr tc
          none) r c := by
  intro r c
  by_cases hxc : r = cpr ∧ c = tc
  · obtain ⟨hr, hc⟩ := hxc
    subst hr; subst hc
    rw [cellAt_setCell_none]
    by_cases hcf : r = fr ∧ c = fc
    · obtain ⟨e1, e2⟩ := hcf
      rw [e1, e2, cellAt_setCell_none]
    · have g1 : r ≠ fr ∨ c ≠ fc := by omega
      rw [cellAt_setCell_other _ _ _ _ _ _ g1,
        cellAt_setCell_other _ _ _ _ _ _ (Or.inl hcap),
        cellAt_setCell_none]
  by_cases hxt : r = tr ∧ c = tc
  · obtain ⟨hr, hc⟩ := hxt
    subst hr; subst hc
    have hft : r ≠ fr ∨ c ≠ fc := by omega
    rw [cellAt_setCell_other _ _ _ _ _ _ hft,
      cellAt_setCell_wr _ _ _ _ (wr_setCell _ _ _ _ _ _ hwt),
      cellAt_setCell_other _ _ _ _ _ _ (Or.inl (Ne.symm hcap)),
      cellAt_setCell_other _ _ _ _ _ _ hft,
      cellAt_setCell_wr _ _ _ _ hwt]
  by_cases hxf : r = fr ∧ c = fc
  · obtain ⟨hr, hc⟩ := hxf
    subst hr; subst hc
    have g1 : r ≠ cpr ∨ c ≠ tc := by omega
    rw [cellAt_setCell_none,
      cellAt_setCell_other _ _ _ _ _ _ g1,
      cellAt_setCell_none]
  · have g1 : r ≠ cpr ∨ c ≠ tc := by omega
    have g2 : r ≠ tr ∨ c ≠ tc := by omega
    have g3 : r ≠ fr ∨ c ≠ fc := by omega
    rw [cellAt_setCell_other _ _ _ _ _ _ g3,
      cellAt_setCell_other _ _ _ _ _ _ g2,
      cellAt_setCell_other _ _ _ _ _ _ g1,
      cellAt_setCell_other _ _ _ _ _ _ g1,
      cellAt_setCell_other _ _ _ _ _ _ g3,
      cellAt_setCell_other _ _ _ _ _ _ g2]

theorem exec_sim_cells (b : Board) (f t : Position) (cr : CastlingRights)
    (ep : Option Position) (pp : PromotionPiece) (p : ChessPiece)
    (hrect : Rect b) (hp : cellAt b f.row f.col = some p)
    (hbasic : isValidMoveBasic b f t ep (some cr) = true) :
    ∀ r c : Int,
      cellAt (executeMove b f t cr ep pp).newBoard r c =
          cellAt (simulateMove b f t ep) r c ∨
        ∃ p₁ p₂, cellAt (executeMove b f t cr ep pp).newBoard r c = some p₁ ∧
          cellAt (simulateMove b f t ep) r c = some p₂ ∧
          p₁.color = p.color ∧ p₂.color = p.color ∧
          p₁.type ≠ PieceType.king ∧ p₂.type ≠ PieceType.king := by
  have hne : ¬(f.row = t.row ∧ f.col = t.col) :=
    basic_ne b f t ep (some cr) p hp hbasic
  have hbnd := basic_bounds b f t ep (some cr) hbasic
  have hwt : Wr b t.row t.col :=
    wr_of_inBounds b t hrect ⟨hbnd.1, hbnd.2.1, hbnd.2.2.1, hbnd.2.2.2⟩
  by_cases hking : p.type = PieceType.king ∧ (t.col - f.col).natAbs = 2
  · -- castling
    obtain ⟨ht, hcast⟩ := basic_castle b f t ep cr p hp hbasic hking.1 hking.2
    obtain ⟨hfc4, rook, hrook⟩ := canCastle_facts b f t p.color cr hcast
    by_cases hks : f.col < t.col
    · -- kingside: f.col = 4, t.col = 6, rook from 8 to 5
      have ht6 : t.col = 6 := by
        have := hking.2
        omega
      rw [if_pos hks] at hrook
      have hw8 : Wr b f.row 8 := cellAt_some_bounds b f.row 8 rook hrook
      obtain ⟨w1, w2, w3, w4⟩ := hw8
      have hwtc : Wr b f.row t.col := ⟨w1, w2, by omega, by omega⟩
      have hwrt : Wr b f.row (t.col - 1) := ⟨w1, w2, by omega, by omega⟩
      have htag : getSpecialMoveType b f t ep = some SpecialMove.castleKingside := by
        simp [getSpecialMoveType, hp, hking.1, hking.2, hks]
      have hexec : (executeMove b f t cr ep pp).newBoard =
          setCell (setCell (setCell (setCell b t.row (t.col - 1)
            (cellAt b t.row 8)) t.row 8 none) t.row t.col (some p)) f.row f.col
            none := by
        simp [executeMove, hp, htag]
      have hv : cellAt (setCell (setCell b t.row t.col (some p)) f.row f.col none)
          t.row 8 = cellAt b t.row 8 := by
        have n1 : t.row ≠ f.row ∨ (8 : Int) ≠ f.col := Or.inr (by omega)
        have n2 : t.row ≠ t.row ∨ (8 : Int) ≠ t.col := Or.inr (by omega)
        rw [cellAt_setCell_other _ _ _ _ _ _ n1, cellAt_setCell_other _ _ _ _ _ _ n2]
      have hsim : simulateMove b f t ep =
          setCell (setCell (setCell (setCell b t.row t.col (some p)) f.row f.col
            none) t.row (t.col - 1)
            (cellAt (setCell (setCell b t.row t.col (some p)) f.row f.col none)
              t.row 8)) t.row 8 none := by
        rcases ep with _ | e <;> simp [simulateMove, hp, hking.1, hking.2, hks]
      rw [hv] at hsim
      rw [ht] at hexec hsim
      intro r c
      rw [hexec, hsim]
      exact Or.inl (castle_cells b p (cellAt b f.row 8) f.row f.col t.col 8
        (t.col - 1) (by omega) (by omega) (by omega) (by omega) (by omega)
        (by omega) hwtc hwrt r c)
    · -- queenside: f.col = 4, t.col = 2, rook from 0 to 3
      have ht2 : t.col = 2 := by
        have := hking.2
        omega
      rw [if_neg hks] at hrook
      have hwf : Wr b f.row f.col := cellAt_some_bounds b f.row f.col p hp
      obtain ⟨w1, w2, w3, w4⟩ := hwf
      have hwtc : Wr b f.row t.col := ⟨w1, w2, by omega, by omega⟩
      have hwrt : Wr b f.row (t.col + 1) := ⟨w1, w2, by omega, by omega⟩
      have htag : getSpecialMoveType b f t ep = some SpecialMove.castleQueenside := by
        simp [getSpecialMoveType, hp, hking.1, hking.2, hks]
      have hexec : (executeMove b f t cr ep pp).newBoard =
          setCell (setCell (setCell (setCell b t.row (t.col + 1)
            (cellAt b t.row 0)) t.row 0 none) t.row t.col (some p)) f.row f.col
            none := by
        simp [executeMove, hp, htag]
      have hv : cellAt (setCell (setCell b t.row t.col (some p)) f.row f.col none)
          t.row 0 = cellAt b t.row 0 := by
        have n1 : t.row ≠ f.row ∨ (0 : Int) ≠ f.col := Or.inr (by omega)
        have n2 : t.row ≠ t.row ∨ (0 : Int) ≠ t.col := Or.inr (by omega)
        rw [cellAt_setCell_other _ _ _ _ _ _ n1, cellAt_setCell_other _ _ _ _ _ _ n2]
      have hsim : simulateMove b f t ep =
          setCell (setCell (setCell (setCell b t.row t.col (some p)) f.row f.col
            none) t.row (t.col + 1)
            (cellAt (setCell (setCell b t.row t.col (some p)) f.row f.col none)
              t.row 0)) t.row 0 none := by
        rcases ep with _ | e <;> simp [simulateMove, hp, hking.1, hking.2, hks]
      rw [hv] at hsim
      rw [ht] at hexec hsim
      intro r c
      rw [hexec, hsim]
      exact Or.inl (castle_cells b p (cellAt b f.row 0) f.row f.col t.col 0
        (t.col + 1) (by omega) (by omega) (by omega) (by omega) (by omega)
        (by omega) hwtc hwrt r c)
  by_cases hep : p.type = PieceType.pawn ∧ ep = some ⟨t.row, t.col⟩
  · -- en passant
    obtain ⟨hpt, hepe⟩ := hep
    subst hepe
    have htag : getSpecialMoveType b f t (some ⟨t.row, t.col⟩) =
        some SpecialMove.enPassant := by
      simp [getSpecialMoveType, hp, hpt]
    have hexec : (executeMove b f t cr (some ⟨t.row, t.col⟩) pp).newBoard =
        setCell (setCell (setCell b
          (if p.color = PieceColor.white then t.row + 1 else t.row - 1) t.col
          none) t.row t.col (some p)) f.row f.col none := by
      simp [executeMove, hp, htag]
    have hsim : simulateMove b f t (some ⟨t.row, t.col⟩) =
        setCell (setCell (setCell b t.row t.col (some p)) f.row f.col none)
          (if p.color = PieceColor.white then t.row + 1 else t.row - 1) t.col
          none := by
      simp [simulateMove, hp, hpt]
    have hcpr : (if p.color = PieceColor.white then t.row + 1 else t.row - 1) ≠
        t.row := by
      split_ifs <;> omega
    intro r c
    rw [hexec, hsim]
    exact Or.inl (ep_cells b p f.row f.col t.row t.col _ hne hcpr hwt r c)
  by_cases hpromo : p.type = PieceType.pawn ∧
      ((p.color = PieceColor.white ∧ t.row = 0) ∨
        (p.color = PieceColor.black ∧ t.row = (rowsOf b : Int) - 1))
  · -- promotion
    have htag : getSpecialMoveType b f t ep = some SpecialMove.promotion := by
      have hepn : ep ≠ some ⟨t.row, t.col⟩ := fun h => hep ⟨hpromo.1, h⟩
      simp [getSpecialMoveType, hp, hpromo.1, hpromo.2, hepn, hking]
    have hexec : (executeMove b f t cr ep pp).newBoard =
        setCell (setCell b t.row t.col
          (some ⟨promotionType pp, p.color⟩)) f.row f.col none := by
      simp [executeMove, hp, htag]
    have hsim : simulateMove b f t ep =
        setCell (setCell b t.row t.col (some p)) f.row f.col none := by
      rcases ep with _ | e
      · simp [simulateMove, hp, hpromo.1]
      · rcases e with ⟨er, ec⟩
        have hcond : ¬(p.type = PieceType.pawn ∧ t.row = er ∧ t.col = ec) := by
          rintro ⟨h1, h2, h3⟩
          exact hep ⟨h1, by rw [h2, h3]⟩
        simp [simulateMove, hp, hpromo.1]
        intro h2 h3
        exact absurd ⟨hpromo.1, h2, h3⟩ hcond
    intro r c
    rw [hexec, hsim]
    have n1 : t.row ≠ f.row ∨ t.col ≠ f.col := by omega
    by_cases hxt : r = t.row ∧ c = t.col
    · obtain ⟨e1, e2⟩ := hxt
      subst e1; subst e2
      refine Or.inr ⟨⟨promotionType pp, p.color⟩, p, ?_, ?_, rfl, rfl,
        promotionType_ne_king pp, ?_⟩
      · rw [cellAt_setCell_other _ _ _ _ _ _ n1, cellAt_setCell_wr _ _ _ _ hwt]
      · rw [cellAt_setCell_other _ _ _ _ _ _ n1, cellAt_setCell_wr _ _ _ _ hwt]
      · rw [hpromo.1]
        simp
    · refine Or.inl ?_
      have n2 : r ≠ t.row ∨ c ≠ t.col := by omega
      by_cases hxf : r = f.row ∧ c = f.col
      · obtain ⟨e1, e2⟩ := hxf
        subst e1; subst e2
        rw [cellAt_setCell_none, cellAt_setCell_none]
      · have n3 : r ≠ f.row ∨ c ≠ f.col := by omega
        rw [cellAt_setCell_other _ _ _ _ _ _ n3,
          cellAt_setCell_other _ _ _ _ _ _ n2,
          cellAt_setCell_other _ _ _ _ _ _ n3,
          cellAt_setCell_other _ _ _ _ _ _ n2]
  · -- ordinary move
    have htag : getSpecialMoveType b f t ep = none := by
      simp [getSpecialMoveType, hp, hking, hep, hpromo]
    have hexec : (executeMove b f t cr ep pp).newBoard =
        setCell (setCell b t.row t.col (some p)) f.row f.col none := by
      simp [executeMove, hp, htag]
    have hsim : simulateMove b f t ep =
        setCell (setCell b t.row t.col (some p)) f.row f.col none := by
      rcases ep with _ | e
      · simp [simulateMove, hp, hking]
      · rcases e with ⟨er, ec⟩
        have hcond : ¬(p.type = PieceType.pawn ∧ t.row = er ∧ t.col = ec) := by
          rintro ⟨h1, h2, h3⟩
          exact hep ⟨h1, by rw [h2, h3]⟩
        simp [simulateMove, hp, hking]
        intro h1 h2 h3
        exact absurd ⟨h1, h2, h3⟩ hcond
    intro r c
    rw [hexec, hsim]
    exact Or.inl rfl

/-- C1: full legality is basic validity plus king safety of the simulated
move, and every move accepted by `isValidMove`, once executed, leaves the
mover's king out of check. -/
theorem c1_legality_king_safety :
    (∀ (b : Board) (f t : Position) (ep : Option Position)
        (cr : Option CastlingRights),
        isValidMove b f t ep cr = true ↔
          ∃ p, cellAt b f.row f.col = some p ∧
            isValidMoveBasic b f t ep cr = true ∧
            wouldMoveLeaveKingInCheck b f t p.color ep = false) ∧
    (∀ (b : Board) (f t : Position) (ep : Option Position) (cr : CastlingRights)
        (pp : PromotionPiece) (p : ChessPiece),
        Rect b → cellAt b f.row f.col = some p →
        isValidMove b f t ep (some cr) = true →
        isKingInCheck (executeMove b f t cr ep pp).newBoard p.color = false) := by
  have hiff : ∀ (b : Board) (f t : Position) (ep : Option Position)
      (cr : Option CastlingRights),
      isValidMove b f t ep cr = true ↔
        ∃ p, cellAt b f.row f.col = some p ∧
          isValidMoveBasic b f t ep cr = true ∧
          wouldMoveLeaveKingInCheck b f t p.color ep = false := by
    intro b f t ep cr
    rcases hc : cellAt b f.row f.col with _ | piece
    · simp [isValidMove, hc]
    · simp only [isValidMove, hc]
      constructor
      · intro h
        split_ifs at h with h1 h2
        refine ⟨piece, rfl, ?_, ?_⟩
        · simpa using h1
        · simpa using h2
      · rintro ⟨q, hq, hb, hw⟩
        have hqp : q = piece := (Option.some.inj hq).symm
        subst hqp
        simp [hb, hw]
  refine ⟨hiff, ?_⟩
  intro b f t ep cr pp p hrect hp hv
  obtain ⟨q, hq, hbasic, hwould⟩ := (hiff b f t ep (some cr)).mp hv
  have hqp : q = p := Option.some.inj (hq.symm.trans hp)
  subst hqp
  have hcells := exec_sim_cells b f t cr ep pp q hrect hq hbasic
  have hrows : rowsOf (executeMove b f t cr ep pp).newBoard =
      rowsOf (simulateMove b f t ep) := by
    rw [rowsOf_executeMove, rowsOf_simulateMove]
  have hcols : colsOf (executeMove b f t cr ep pp).newBoard =
      colsOf (simulateMove b f t ep) := by
    rw [colsOf_executeMove, colsOf_simulateMove]
  have hck := isKingInCheck_congr (executeMove b f t cr ep pp).newBoard
    (simulateMove b f t ep) q.color hrows hcols hcells
  rw [hck]
  simpa [wouldMoveLeaveKingInCheck] using hwould

/-- C1 witness: a concrete legal pawn move (a promotion) on a small board,
with the theorem's three hypotheses discharged by evaluation; executing it
leaves the white king out of check. -/
theorem c1_legality_king_safety_witness :
    isKingInCheck (executeMove tinyBoard ⟨1, 0⟩ ⟨0, 0⟩ allRights none
        PromotionPiece.queen).newBoard PieceColor.white = false :=
  c1_legality_king_safety.2 tinyBoard ⟨1, 0⟩ ⟨0, 0⟩ none allRights
    PromotionPiece.queen ⟨PieceType.pawn, PieceColor.white⟩ (by decide)
    (by decide) (by decide)



/-! ### C9: alpha-beta search equals brute-force minimax; deterministic AI choice -/

theorem negInf_le (s : Score) : Score.negInf ≤ s := by
  cases s <;> exact trivial

theorem le_posInf (s : Score) : s ≤ Score.posInf := by
  cases s <;> exact trivial

theorem negInf_lt_fin (q : ℚ) : (Score.negInf : Score) < Score.fin q := by
  rw [lt_iff_le_not_le]
  exact ⟨negInf_le _, fun h => h⟩

theorem fin_lt_posInf (q : ℚ) : (Score.fin q : Score) < Score.posInf := by
  rw [lt_iff_le_not_le]
  exact ⟨le_posInf _, fun h => h⟩

theorem negInf_lt_posInf : (Score.negInf : Score) < Score.posInf := by
  rw [lt_iff_le_not_le]
  exact ⟨negInf_le _, fun h => h⟩

theorem eq_negInf_of_le (s : Score) (h : s ≤ Score.negInf) : s = Score.negInf := by
  cases s with
  | negInf => rfl
  | fin q => exact absurd h (fun hh => hh)
  | posInf => exact absurd h (fun hh => hh)

theorem eq_posInf_of_le (s : Score) (h : Score.posInf ≤ s) : s = Score.posInf := by
  cases s with
  | negInf => exact absurd h (fun hh => hh)
  | fin q => exact absurd h (fun hh => hh)
  | posInf => rfl

theorem addQ_zero (s : Score) : s.addQ 0 = s := by
  cases s <;> simp [Score.addQ]

/-- Fail-soft alpha-beta value contract relative to the exact (brute-force)
value: inside the window the value is exact, at or below alpha it is an
upper bound on the exact value, at or above beta a lower bound. -/
def ABOk (a b v exact : Score) : Prop :=
  (a < v ∧ v < b → v = exact) ∧ (v ≤ a → exact ≤ v) ∧ (b ≤ v → v ≤ exact)

theorem ABOk_refl (a b v : Score) : ABOk a b v v :=
  ⟨fun _ => rfl, fun _ => le_refl v, fun _ => le_refl v⟩

theorem foldl_max_init_le (F : MoveResult → Score) :
    ∀ (l : List MoveResult) (m : Score),
      m ≤ l.foldl (fun acc r => max acc (F r)) m := by
  intro l
  induction l with
  | nil => intro m; exact le_refl m
  | cons r rest ih =>
    intro m
    exact le_trans (le_max_left m (F r)) (ih (max m (F r)))

theorem foldl_min_le_init (F : MoveResult → Score) :
    ∀ (l : List MoveResult) (m : Score),
      l.foldl (fun acc r => min acc (F r)) m ≤ m := by
  intro l
  induction l with
  | nil => intro m; exact le_refl m
  | cons r rest ih =>
    intro m
    exact le_trans (ih (min m (F r))) (min_le_left m (F r))

theorem abMaxAux_ok (fEv : MoveResult → Score → Score → Score)
    (F : MoveResult → Score) (bb : Score) :
    ∀ (l : List MoveResult) (mv me a0 al : Score),
      (∀ r ∈ l, ∀ x y : Score, x < y → ABOk x y (fEv r x y) (F r)) →
      me ≤ mv → (a0 < mv → mv ≤ me) → al = max a0 mv → al < bb →
      ABOk a0 bb (abMaxAux fEv l mv al bb)
        (l.foldl (fun acc r => max acc (F r)) me) := by
  intro l
  induction l with
  | nil =>
    intro mv me a0 al hIH hme hup hal hab
    refine ⟨fun h => le_antisymm (hup h.1) hme, fun _ => hme, fun hb => ?_⟩
    exfalso
    have hmval : mv ≤ al := hal ▸ le_max_right a0 mv
    exact absurd (lt_of_le_of_lt (le_trans hb hmval) hab) (lt_irrefl bb)
  | cons r rest ih =>
    intro mv me a0 al hIH hme hup hal hab
    have hchild := hIH r (List.mem_cons_self r rest) al bb hab
    simp only [abMaxAux, List.foldl_cons]
    by_cases hprune : bb ≤ max al (fEv r al bb)
    · rw [if_pos hprune]
      have hbev : bb ≤ fEv r al bb := by
        rcases max_cases al (fEv r al bb) with ⟨hm, _⟩ | ⟨hm, _⟩
        · rw [hm] at hprune
          exact absurd hprune (not_le_of_lt hab)
        · rw [hm] at hprune
          exact hprune
      have hevF : fEv r al bb ≤ F r := hchild.2.2 hbev
      have ha0b : a0 < bb := lt_of_le_of_lt (hal ▸ le_max_left a0 mv) hab
      have hfold1 : F r ≤ rest.foldl (fun acc r => max acc (F r)) (max me (F r)) :=
        le_trans (le_max_right me (F r)) (foldl_max_init_le F rest _)
      have hmvfold : mv ≤ rest.foldl (fun acc r => max acc (F r)) (max me (F r)) :=
        le_trans (hal ▸ le_max_right a0 mv)
          (le_trans (le_of_lt hab) (le_trans hbev (le_trans hevF hfold1)))
      refine ⟨fun h => ?_, fun h => ?_, fun _ => max_le hmvfold (le_trans hevF hfold1)⟩
      · exact absurd h.2
          (not_lt_of_le (le_trans hbev (le_max_right mv (fEv r al bb))))
      · exfalso
        have hba : bb ≤ a0 :=
          le_trans (le_trans hbev (le_max_right mv (fEv r al bb))) h
        exact absurd (lt_of_le_of_lt hba ha0b) (lt_irrefl bb)
    · rw [if_neg hprune]
      push_neg at hprune
      have hevb : fEv r al bb < bb :=
        lt_of_le_of_lt (le_max_right al (fEv r al bb)) hprune
      rcases le_or_lt (fEv r al bb) al with heval | halev
      · -- the child failed low: its value upper-bounds its exact score
        have hFev : F r ≤ fEv r al bb := hchild.2.1 heval
        apply ih (max mv (fEv r al bb)) (max me (F r)) a0 (max al (fEv r al bb))
          (fun r' h' => hIH r' (List.mem_cons_of_mem r h'))
        · exact max_le (le_trans hme (le_max_left mv (fEv r al bb)))
            (le_trans hFev (le_max_right mv (fEv r al bb)))
        · intro hgt
          rcases max_cases mv (fEv r al bb) with ⟨hm, _⟩ | ⟨hm, _⟩
          · rw [hm] at hgt ⊢
            exact le_trans (hup hgt) (le_max_left me (F r))
          · rw [hm] at hgt ⊢
            have heval' : fEv r al bb ≤ max a0 mv := hal ▸ heval
            by_cases hc : a0 < mv
            · rw [max_eq_right (le_of_lt hc)] at heval'
              exact le_trans heval' (le_trans (hup hc) (le_max_left me (F r)))
            · push_neg at hc
              rw [max_eq_left hc] at heval'
              exact absurd hgt (not_lt_of_le heval')
        · rw [hal, max_assoc]
        · exact hprune
      · -- the child's value lies inside the window: it is exact
        have hevF : fEv r al bb = F r := hchild.1 ⟨halev, hevb⟩
        rw [hevF]
        apply ih (max mv (F r)) (max me (F r)) a0 (max al (F r))
          (fun r' h' => hIH r' (List.mem_cons_of_mem r h'))
        · exact max_le_max hme (le_refl (F r))
        · intro hgt
          rcases max_cases mv (F r) with ⟨hm, _⟩ | ⟨hm, _⟩
          · rw [hm] at hgt ⊢
            exact le_trans (hup hgt) (le_max_left me (F r))
          · rw [hm]
            exact le_max_right me (F r)
        · rw [hal, max_assoc]
        · exact hevF ▸ hprune

theorem abMinAux_ok (fEv : MoveResult → Score → Score → Score)
    (F : MoveResult → Score) (aa : Score) :
    ∀ (l : List MoveResult) (mv me b0 be : Score),
      (∀ r ∈ l, ∀ x y : Score, x < y → ABOk x y (fEv r x y) (F r)) →
      mv ≤ me → (mv < b0 → me ≤ mv) → be = min b0 mv → aa < be →
      ABOk aa b0 (abMinAux fEv l mv aa be)
        (l.foldl (fun acc r => min acc (F r)) me) := by
  intro l
  induction l with
  | nil =>
    intro mv me b0 be hIH hme hdn hbe hab
    refine ⟨fun h => le_antisymm hme (hdn h.2), fun hle => ?_, fun _ => hme⟩
    exfalso
    have hbemv : be ≤ mv := hbe ▸ min_le_right b0 mv
    exact absurd (lt_of_lt_of_le hab (le_trans hbemv hle)) (lt_irrefl aa)
  | cons r rest ih =>
    intro mv me b0 be hIH hme hdn hbe hab
    have hchild := hIH r (List.mem_cons_self r rest) aa be hab
    simp only [abMinAux, List.foldl_cons]
    by_cases hprune : min be (fEv r aa be) ≤ aa
    · rw [if_pos hprune]
      have hbev : fEv r aa be ≤ aa := by
        rcases min_cases be (fEv r aa be) with ⟨hm, _⟩ | ⟨hm, _⟩
        · rw [hm] at hprune
          exact absurd hprune (not_le_of_lt hab)
        · rw [hm] at hprune
          exact hprune
      have hevF : F r ≤ fEv r aa be := hchild.2.1 hbev
      have hab0 : aa < b0 := lt_of_lt_of_le hab (hbe ▸ min_le_left b0 mv)
      have hfold1 : rest.foldl (fun acc r => min acc (F r)) (min me (F r)) ≤ F r :=
        le_trans (foldl_min_le_init F rest _) (min_le_right me (F r))
      have hmvfold : rest.foldl (fun acc r => min acc (F r)) (min me (F r)) ≤ mv :=
        le_trans (le_trans hfold1 (le_trans hevF hbev))
          (le_trans (le_of_lt hab) (hbe ▸ min_le_right b0 mv))
      refine ⟨fun h => ?_, fun _ => le_min hmvfold (le_trans hfold1 hevF), fun h => ?_⟩
      · exact absurd h.1
          (not_lt_of_le (le_trans (min_le_right mv (fEv r aa be)) hbev))
      · exfalso
        have hba : b0 ≤ aa :=
          le_trans h (le_trans (min_le_right mv (fEv r aa be)) hbev)
        exact absurd (lt_of_lt_of_le hab0 hba) (lt_irrefl aa)
    · rw [if_neg hprune]
      push_neg at hprune
      have hevb : aa < fEv r aa be :=
        lt_of_lt_of_le hprune (min_le_right be (fEv r aa be))
      rcases le_or_lt be (fEv r aa be) with hbeev | hevbe
      · -- the child failed high: its value lower-bounds its exact score
        have hFev : fEv r aa be ≤ F r := hchild.2.2 hbeev
        apply ih (min mv (fEv r aa be)) (min me (F r)) b0 (min be (fEv r aa be))
          (fun r' h' => hIH r' (List.mem_cons_of_mem r h'))
        · exact le_min (le_trans (min_le_left mv (fEv r aa be)) hme)
            (le_trans (min_le_right mv (fEv r aa be)) hFev)
        · intro hlt
          rcases min_cases mv (fEv r aa be) with ⟨hm, _⟩ | ⟨hm, _⟩
          · rw [hm] at hlt ⊢
            exact le_trans (min_le_left me (F r)) (hdn hlt)
          · rw [hm] at hlt ⊢
            have hbeev' : min b0 mv ≤ fEv r aa be := hbe ▸ hbeev
            by_cases hc : mv < b0
            · rw [min_eq_right (le_of_lt hc)] at hbeev'
              exact le_trans (min_le_left me (F r)) (le_trans (hdn hc) hbeev')
            · push_neg at hc
              rw [min_eq_left hc] at hbeev'
              exact absurd hlt (not_lt_of_le hbeev')
        · rw [hbe, min_assoc]
        · exact hprune
      · -- the child's value lies inside the window: it is exact
        have hevF : fEv r aa be = F r := hchild.1 ⟨hevb, hevbe⟩
        rw [hevF]
        apply ih (min mv (F r)) (min me (F r)) b0 (min be (F r))
          (fun r' h' => hIH r' (List.mem_cons_of_mem r h'))
        · exact min_le_min hme (le_refl (F r))
        · intro hlt
          rcases min_cases mv (F r) with ⟨hm, _⟩ | ⟨hm, _⟩
          · rw [hm] at hlt ⊢
            exact le_trans (min_le_left me (F r)) (hdn hlt)
          · rw [hm]
            exact min_le_right me (F r)
        · rw [hbe, min_assoc]
        · exact hevF ▸ hprune

theorem minimax_ok :
    ∀ (d : Nat) (b : Board) (a bb : Score) (im : Bool) (ep : Option Position)
      (cr : CastlingRights), a < bb →
      ABOk a bb (minimax b d a bb im ep cr) (minimaxBF b d im ep cr) := by
  intro d
  induction d with
  | zero =>
    intro b a bb im ep cr hab
    exact ABOk_refl a bb _
  | succ d ihd =>
    intro b a bb im ep cr hab
    simp only [minimax, minimaxBF]
    by_cases hcm : isCheckmate b (if im = true then PieceColor.black else
        PieceColor.white) ep (some cr) = true
    · rw [if_pos hcm, if_pos hcm]
      exact ABOk_refl a bb _
    · rw [if_neg hcm, if_neg hcm]
      by_cases hemp : (childResults b (if im = true then PieceColor.black else
          PieceColor.white) ep cr).isEmpty = true
      · rw [if_pos hemp, if_pos hemp]
        exact ABOk_refl a bb _
      · rw [if_neg hemp, if_neg hemp]
        cases im with
        | false =>
          rw [if_neg Bool.false_ne_true, if_neg Bool.false_ne_true]
          apply abMinAux_ok _ _ a _ Score.posInf Score.posInf bb bb
          · intro r _ x y hxy
            exact ihd r.newBoard x y true r.newEnPassantTarget
              r.newCastlingRights hxy
          · exact le_refl _
          · intro h
            exact le_refl _
          · exact (min_eq_left (le_posInf bb)).symm
          · exact hab
        | true =>
          rw [if_pos rfl, if_pos rfl]
          apply abMaxAux_ok _ _ bb _ Score.negInf Score.negInf a a
          · intro r _ x y hxy
            exact ihd r.newBoard x y false r.newEnPassantTarget
              r.newCastlingRights hxy
          · exact le_refl _
          · intro h
            exact le_refl _
          · exact (max_eq_left (negInf_le a)).symm
          · exact hab

theorem minimax_eq_BF (b : Board) (d : Nat) (im : Bool) (ep : Option Position)
    (cr : CastlingRights) :
    minimax b d Score.negInf Score.posInf im ep cr = minimaxBF b d im ep cr := by
  have h := minimax_ok d b Score.negInf Score.posInf im ep cr negInf_lt_posInf
  rcases hv : minimax b d Score.negInf Score.posInf im ep cr with _ | q | _
  · rw [hv] at h
    exact (eq_negInf_of_le _ (h.2.1 (le_refl _))).symm
  · rw [hv] at h
    exact h.1 ⟨negInf_lt_fin q, fin_lt_posInf q⟩
  · rw [hv] at h
    exact (eq_posInf_of_le _ (h.2.2 (le_refl _))).symm

theorem foldl_max_fin (F : MoveResult → Score) :
    ∀ (l : List MoveResult) (q0 : ℚ), (∀ r ∈ l, ∃ q, F r = Score.fin q) →
      ∃ q, l.foldl (fun acc r => max acc (F r)) (Score.fin q0) = Score.fin q := by
  intro l
  induction l with
  | nil =>
    intro q0 _
    exact ⟨q0, rfl⟩
  | cons r rest ih =>
    intro q0 hF
    obtain ⟨qr, hqr⟩ := hF r (List.mem_cons_self r rest)
    simp only [List.foldl_cons]
    rcases max_cases (Score.fin q0) (F r) with ⟨hm, _⟩ | ⟨hm, _⟩
    · rw [hm]
      exact ih q0 (fun r' h' => hF r' (List.mem_cons_of_mem r h'))
    · rw [hm, hqr]
      exact ih qr (fun r' h' => hF r' (List.mem_cons_of_mem r h'))

theorem foldl_min_fin (F : MoveResult → Score) :
    ∀ (l : List MoveResult) (q0 : ℚ), (∀ r ∈ l, ∃ q, F r = Score.fin q) →
      ∃ q, l.foldl (fun acc r => min acc (F r)) (Score.fin q0) = Score.fin q := by
  intro l
  induction l with
  | nil =>
    intro q0 _
    exact ⟨q0, rfl⟩
  | cons r rest ih =>
    intro q0 hF
    obtain ⟨qr, hqr⟩ := hF r (List.mem_cons_self r rest)
    simp only [List.foldl_cons]
    rcases min_cases (Score.fin q0) (F r) with ⟨hm, _⟩ | ⟨hm, _⟩
    · rw [hm]
      exact ih q0 (fun r' h' => hF r' (List.mem_cons_of_mem r h'))
    · rw [hm, hqr]
      exact ih qr (fun r' h' => hF r' (List.mem_cons_of_mem r h'))

theorem minimaxBF_fin :
    ∀ (d : Nat) (b : Board) (im : Bool) (ep : Option Position)
      (cr : CastlingRights), ∃ q, minimaxBF b d im ep cr = Score.fin q := by
  intro d
  induction d with
  | zero =>
    intro b im ep cr
    exact ⟨_, rfl⟩
  | succ d ihd =>
    intro b im ep cr
    simp only [minimaxBF]
    by_cases hcm : isCheckmate b (if im = true then PieceColor.black else
        PieceColor.white) ep (some cr) = true
    · rw [if_pos hcm]
      cases im
      · exact ⟨10000, by rw [if_neg Bool.false_ne_true]⟩
      · exact ⟨-10000, by rw [if_pos rfl]⟩
    · rw [if_neg hcm]
      by_cases hemp : (childResults b (if im = true then PieceColor.black else
          PieceColor.white) ep cr).isEmpty = true
      · rw [if_pos hemp]
        exact ⟨0, rfl⟩
      · rw [if_neg hemp]
        rcases hch : childResults b (if im = true then PieceColor.black else
            PieceColor.white) ep cr with _ | ⟨c0, cs⟩
        · rw [hch] at hemp
          exact absurd rfl hemp
        · cases im
          · rw [if_neg Bool.false_ne_true]
            simp only [List.foldl_cons]
            obtain ⟨q0, hq0⟩ :=
              ihd c0.newBoard true c0.newEnPassantTarget c0.newCastlingRights
            have hmin : min Score.posInf (minimaxBF c0.newBoard d true
                c0.newEnPassantTarget c0.newCastlingRights) = Score.fin q0 := by
              rw [hq0]
              exact min_eq_right (le_posInf (Score.fin q0))
            rw [hmin]
            exact foldl_min_fin _ cs q0
              (fun r' h' => ihd r'.newBoard true r'.newEnPassantTarget
                r'.newCastlingRights)
          · rw [if_pos rfl]
            simp only [List.foldl_cons]
            obtain ⟨q0, hq0⟩ :=
              ihd c0.newBoard false c0.newEnPassantTarget c0.newCastlingRights
            have hmax : max Score.negInf (minimaxBF c0.newBoard d false
                c0.newEnPassantTarget c0.newCastlingRights) = Score.fin q0 := by
              rw [hq0]
              exact max_eq_right (negInf_le (Score.fin q0))
            rw [hmax]
            exact foldl_max_fin _ cs q0
              (fun r' h' => ihd r'.newBoard false r'.newEnPassantTarget
                r'.newCastlingRights)

/-- The strict-improvement selection fold of `getAIMove`, abstracted over
the scoring function. -/
def selFold (s : MoveCand → Score) : List MoveCand → MoveCand → Score → MoveCand
  | [], best, _ => best
  | x :: rest, best, bs =>
    if bs < s x then selFold s rest x (s x) else selFold s rest best bs

theorem list_find?_congr (p q : MoveCand → Bool) :
    ∀ l : List MoveCand, (∀ x ∈ l, p x = q x) → l.find? p = l.find? q := by
  intro l
  induction l with
  | nil =>
    intro _
    rfl
  | cons x rest ih =>
    intro h
    have hx := h x (List.mem_cons_self x rest)
    cases hpx : p x
    · rw [List.find?_cons_of_neg _ (by simp [hpx]),
        List.find?_cons_of_neg _ (by rw [← hx]; simp [hpx])]
      exact ih (fun y hy => h y (List.mem_cons_of_mem x hy))
    · rw [List.find?_cons_of_pos _ (by simp [hpx]),
        List.find?_cons_of_pos _ (by rw [← hx]; simp [hpx])]

theorem selFold_find (s : MoveCand → Score) :
    ∀ (rest : List MoveCand) (m0 : MoveCand),
      (m0 :: rest).find?
          (fun x => (m0 :: rest).all fun y => decide (s y ≤ s x)) =
        some (selFold s rest m0 (s m0)) := by
  intro rest
  induction rest with
  | nil =>
    intro m0
    simp [selFold, List.find?]
  | cons mv rest' ih =>
    intro m0
    by_cases hlt : s m0 < s mv
    · have hsel : selFold s (mv :: rest') m0 (s m0) = selFold s rest' mv (s mv) := by
        simp [selFold, hlt]
    -- the running best is beaten: the first move cannot be an argmax either
      rw [hsel, ← ih mv]
      have hm0 : ((m0 :: mv :: rest').all fun y => decide (s y ≤ s m0)) = false := by
        have hn : ¬(s mv ≤ s m0) := not_le_of_lt hlt
        simp [List.all_cons, hn]
      rw [List.find?_cons_of_neg _ (by simp [hm0])]
      apply list_find?_congr
      intro x _
      simp only [List.all_cons]
      cases hmid : (decide (s mv ≤ s x) && rest'.all fun y => decide (s y ≤ s x))
      · simp [hmid]
      · rw [Bool.and_eq_true] at hmid
        have h2 : s m0 ≤ s x :=
          le_trans (le_of_lt hlt) (of_decide_eq_true hmid.1)
        simp [hmid.1, hmid.2, h2]
    · have hle : s mv ≤ s m0 := le_of_not_lt hlt
      have hsel : selFold s (mv :: rest') m0 (s m0) = selFold s rest' m0 (s m0) := by
        simp [selFold, hlt]
      rw [hsel, ← ih m0]
      have hpx : ∀ x : MoveCand,
          ((m0 :: mv :: rest').all fun y => decide (s y ≤ s x)) =
            ((m0 :: rest').all fun y => decide (s y ≤ s x)) := by
        intro x
        simp only [List.all_cons]
        cases h0 : decide (s m0 ≤ s x)
        · simp [h0]
        · have h1 : s m0 ≤ s x := of_decide_eq_true h0
          have h2 : decide (s mv ≤ s x) = true := decide_eq_true (le_trans hle h1)
          simp [h0, h2]
      by_cases hPm0 : ((m0 :: mv :: rest').all fun y => decide (s y ≤ s m0)) = true
      · rw [List.find?_cons_of_pos _ (by simpa using hPm0),
          List.find?_cons_of_pos _ (by rw [← hpx m0]; simpa using hPm0)]
      · have hPmv : ((m0 :: mv :: rest').all fun y => decide (s y ≤ s mv)) =
            false := by
          rcases lt_or_eq_of_le hle with hlt' | heq
          · have hd : decide (s m0 ≤ s mv) = false :=
              decide_eq_false (not_le_of_lt hlt')
            simp [List.all_cons, hd]
          · simp only [heq]
            exact Bool.eq_false_iff.mpr hPm0
        rw [List.find?_cons_of_neg _ (by simpa using hPm0),
          List.find?_cons_of_neg _ (by simp [hPmv]),
          List.find?_cons_of_neg _ (by rw [← hpx m0]; simpa using hPm0)]
        apply list_find?_congr
        intro x _
        exact hpx x

theorem getAIMove_det (b : Board) (diff : Nat) (ep : Option Position)
    (cr : CastlingRights) :
    getAIMove b diff ep cr [] = getAIMoveSpec b diff ep cr := by
  simp only [getAIMove, getAIMoveSpec]
  rcases hm : getAllMoves b PieceColor.black ep (some cr) with _ | ⟨m0, rest⟩
  · rfl
  · have hsc : ∀ (l : List MoveCand) (best : MoveCand) (bs : Score),
        aiSelect b diff ep cr l [] best bs =
          selFold (fun mv =>
            minimaxBF (executeMove b mv.fromPos mv.toPos cr ep
              PromotionPiece.queen).newBoard diff false
              (executeMove b mv.fromPos mv.toPos cr ep
                PromotionPiece.queen).newEnPassantTarget
              (executeMove b mv.fromPos mv.toPos cr ep
                PromotionPiece.queen).newCastlingRights) l best bs := by
      intro l
      induction l with
      | nil =>
        intro best bs
        rfl
      | cons mv rest' ihl =>
        intro best bs
        simp only [aiSelect, selFold, List.headD_nil, List.tail_nil, addQ_zero,
          minimax_eq_BF]
        split_ifs with h
        · exact ihl mv _
        · exact ihl best bs
    obtain ⟨q0, hq0⟩ := minimaxBF_fin diff
      (executeMove b m0.fromPos m0.toPos cr ep PromotionPiece.queen).newBoard
      false
      (executeMove b m0.fromPos m0.toPos cr ep
        PromotionPiece.queen).newEnPassantTarget
      (executeMove b m0.fromPos m0.toPos cr ep
        PromotionPiece.queen).newCastlingRights
    have hpos : Score.negInf <
        minimaxBF (executeMove b m0.fromPos m0.toPos cr ep
          PromotionPiece.queen).newBoard diff false
          (executeMove b m0.fromPos m0.toPos cr ep
            PromotionPiece.queen).newEnPassantTarget
          (executeMove b m0.fromPos m0.toPos cr ep
            PromotionPiece.queen).newCastlingRights := by
      rw [hq0]
      exact negInf_lt_fin q0
    have hstep : selFold (fun mv =>
        minimaxBF (executeMove b mv.fromPos mv.toPos cr ep
          PromotionPiece.queen).newBoard diff false
          (executeMove b mv.fromPos mv.toPos cr ep
            PromotionPiece.queen).newEnPassantTarget
          (executeMove b mv.fromPos mv.toPos cr ep
            PromotionPiece.queen).newCastlingRights) (m0 :: rest) m0
          Score.negInf =
        selFold (fun mv =>
          minimaxBF (executeMove b mv.fromPos mv.toPos cr ep
            PromotionPiece.queen).newBoard diff false
            (executeMove b mv.fromPos mv.toPos cr ep
              PromotionPiece.queen).newEnPassantTarget
            (executeMove b mv.fromPos mv.toPos cr ep
              PromotionPiece.queen).newCastlingRights) rest m0
          (minimaxBF (executeMove b m0.fromPos m0.toPos cr ep
            PromotionPiece.queen).newBoard diff false
            (executeMove b m0.fromPos m0.toPos cr ep
              PromotionPiece.queen).newEnPassantTarget
            (executeMove b m0.fromPos m0.toPos cr ep
              PromotionPiece.queen).newCastlingRights) := by
      simp only [selFold]
      rw [if_pos hpos]
    change some (aiSelect b diff ep cr (m0 :: rest) [] m0 Score.negInf) = _
    rw [hsc (m0 :: rest) m0 Score.negInf, hstep]
    exact (selFold_find _ rest m0).symm

/-- C9: with the infinite initial window, alpha-beta `minimax` computes
exactly the brute-force unpruned minimax value of the same tree, and with
the random perturbation disabled (`randoms = []`) `getAIMove` is the
deterministic first-maximal-score move selection. -/
theorem c9_alphabeta_bruteforce :
    (∀ (b : Board) (d : Nat) (im : Bool) (ep : Option Position)
        (cr : CastlingRights),
        minimax b d Score.negInf Score.posInf im ep cr =
          minimaxBF b d im ep cr) ∧
    (∀ (b : Board) (d : Nat) (ep : Option Position) (cr : CastlingRights),
        getAIMove b d ep cr [] = getAIMoveSpec b d ep cr) :=
  ⟨fun b d im ep cr => minimax_eq_BF b d im ep cr,
   fun b d ep cr => getAIMove_det b d ep cr⟩


end Chess
